import Mathlib

set_option maxRecDepth 100000

/-!
Verification development for the alphatoken-bot stake monitor.

The Python sources `monitoring_block_advanced.py` and `monitoring_mempool.py`
work on call structures already wire-decoded by the substrate client: Python
dictionaries, lists, integers, strings and `None`.  We embed that value
universe as `PyVal` and translate the classification functions over it.

Conventions used throughout the embedding:
* Python `None` is `PyVal.vnone`; a `dict` is an association list of
  string keys (Python dict keys are unique; lookup takes the first match).
* Python `int(x)` is `pyIntSimple` / `pyIntE`: it succeeds on integers and
  on decimal string literals (an optional sign followed by digits; exotic
  forms such as whitespace or underscores are not modelled — no claim
  depends on them) and raises otherwise.  Where the Python code catches
  the exception the model uses `Option`, where the exception propagates to
  a caller's `try` the model uses `Except Unit`.
* Floating point amounts: the only float arithmetic in the sources is
  division by `1e9` and addition of such quotients.  The model uses exact
  rationals; the concrete amounts appearing in claims are exactly
  representable, so no rounding behaviour is lost.
-/

namespace ATB

/-- Universe of decoded substrate values: Python ints, strings, dicts,
lists and `None` as delivered by the chain client to the classifier. -/
inductive PyVal where
  | vint (n : Int)
  | vstr (s : String)
  | vdict (fields : List (String × PyVal))
  | vlist (elems : List PyVal)
  | vnone

/-- Key lookup in a dict value; `none` when the key is missing or the
value is not a dict (Python `k in d` / `d[k]`). -/
def dictGet? : PyVal → String → Option PyVal
  | .vdict fields, k => fields.lookup k
  | _, _ => none

/-- Python `d.get(k)` with default `None`. -/
def pyGet (v : PyVal) (k : String) : PyVal := (dictGet? v k).getD .vnone

/-- Python `isinstance(x, dict)`. -/
def isDict : PyVal → Bool
  | .vdict _ => true
  | _ => false

/-- Python truthiness of a decoded value (`if x:`). -/
def pyTruthy : PyVal → Bool
  | .vint n => n ≠ 0
  | .vstr s => s ≠ ""
  | .vdict fields => ¬ fields.isEmpty
  | .vlist elems => ¬ elems.isEmpty
  | .vnone => false

/-- Python `str(x)` restricted to the shapes the monitor feeds it:
decoded addresses arrive as strings, amounts as ints. -/
def pyStr : PyVal → String
  | .vstr s => s
  | .vint n => toString n
  | _ => ""

/-- Lower-casing of an ASCII letter (`str.lower` on the argument names
occurring in substrate metadata, which are ASCII). -/
def charLower (c : Char) : Char :=
  if 'A' ≤ c ∧ c ≤ 'Z' then Char.ofNat (c.toNat + 32) else c

/-- Python `s.lower()` for the ASCII strings handled here. -/
def strLower (s : String) : String := ⟨s.data.map charLower⟩

/-- Does `p` occur as a prefix of `l`?  Structural so that the kernel can
evaluate it on witnesses. -/
def startsWithAux : List Char → List Char → Bool
  | [], _ => true
  | _ :: _, [] => false
  | p :: ps, c :: cs => p == c && startsWithAux ps cs

/-- Substring occurrence on character lists. -/
def hasSubAux (pat : List Char) : List Char → Bool
  | [] => startsWithAux pat []
  | c :: rest => startsWithAux pat (c :: rest) || hasSubAux pat rest

/-- Python `pat in s` for strings. -/
def strHasSub (s pat : String) : Bool := hasSubAux pat.data s.data

/-- Decimal digit accumulation for `int(str)`. -/
def digitsToNat? : List Char → Option Nat
  | [] => none
  | cs =>
    cs.foldl
      (fun acc c =>
        match acc with
        | none => none
        | some n => if c.isDigit then some (n * 10 + (c.toNat - 48)) else none)
      (some 0)

/-- Python `int(s)` on a string: optional sign followed by digits. -/
def pyIntOfStr (s : String) : Option Int :=
  match s.data with
  | '-' :: rest => (digitsToNat? rest).map (fun n => -(n : Int))
  | '+' :: rest => (digitsToNat? rest).map (fun n => (n : Int))
  | ds => (digitsToNat? ds).map (fun n => (n : Int))

/-- Python `int(x)` where a raised exception is swallowed by the caller:
succeeds on ints and numeric strings, fails on everything else. -/
def pyIntSimple : PyVal → Option Int
  | .vint n => some n
  | .vstr s => pyIntOfStr s
  | _ => none

/-- Python `int(x)` where the exception propagates to an enclosing `try`. -/
def pyIntE (v : PyVal) : Except Unit Int :=
  match pyIntSimple v with
  | some n => Except.ok n
  | none => Except.error ()

/-- Argument name of an arg dict, Python `arg.get('name', '')`.  A
non-string name would raise on `.lower()` and abort classification; the
sources only ever receive string names, modelled as the empty default. -/
def argNameStr (arg : PyVal) : String :=
  match dictGet? arg "name" with
  | some (.vstr s) => s
  | _ => ""

/-- Substrate fixed-width/compact wrapper tags recognised by
`_extract_value_from_arg` (monitoring_mempool.py). -/
def wrapperKeys : List String := ["U8", "U16", "U32", "U64", "U128", "U256", "Compact"]

/-- Scan of the wrapper tags of a dict: first tag whose payload converts
to an int wins; a nested `value` key is unwrapped one level
(monitoring_mempool.py `_extract_value_from_arg`, wrapper-key loops). -/
def wrapperScan (d : PyVal) : Option Int :=
  wrapperKeys.findSome? fun k =>
    match dictGet? d k with
    | none => none
    | some val =>
      match val with
      | .vdict _ =>
        (match dictGet? val "value" with
         | some v' => pyIntSimple v'
         | none => none)
      | _ => pyIntSimple val

/-- Keys probed by the final fallback loop of `_extract_value_from_arg`. -/
def finalKeys : List String := ["value", "amount", "stake", "netuid", "net_uid"]

/-- First stage of `_extract_value_from_arg`: the `arg.get('value')`
pathway (direct int/str, dict with `value` key, dict with wrapper tags). -/
def valueStage (arg : PyVal) : Option Int :=
  match dictGet? arg "value" with
  | none => none
  | some value =>
    match value with
    | .vint n => some n
    | .vstr s => pyIntOfStr s
    | .vdict _ =>
      (match dictGet? value "value" with
       | some v' => pyIntSimple v'
       | none => none)
      <|> wrapperScan value
    | _ => none

/-- Final stage of `_extract_value_from_arg`: probe the keys `value`,
`amount`, `stake`, `netuid`, `net_uid` of the arg dict, unwrapping one
nested dict level and wrapper tags. -/
def finalScan (arg : PyVal) : Option Int :=
  finalKeys.findSome? fun k =>
    match dictGet? arg k with
    | none => none
    | some val =>
      match val with
      | .vint n => some n
      | .vstr s => pyIntOfStr s
      | .vdict _ =>
        (match dictGet? val "value" with
         | some v' => pyIntSimple v'
         | none => none)
        <|> wrapperScan val
      | _ => none

/-- Embedding of `MempoolMonitor._extract_value_from_arg`
(monitoring_mempool.py lines 406-483): integer extraction from an
argument in its various decoded formats.  Python's sequential
`return`/fall-through structure becomes an `Option` alternative chain:
the `value` pathway, then wrapper tags at the top level of the arg dict,
then the final key probe. -/
def extract_value_from_arg (arg : PyVal) : Option Int :=
  if ¬ isDict arg then
    match arg with
    | .vint n => some n
    | .vstr s => pyIntOfStr s
    | _ => none
  else
    valueStage arg <|> wrapperScan arg <|> finalScan arg

/-- Subnet reference attached to a classified transaction: a single
netuid or an (origin, destination) pair. -/
inductive NetuidRef where
  | single (n : Int)
  | pair (a b : Int)
  deriving DecidableEq, Repr

/-- Function names treated as stake movements by the mempool monitor
(`move_swap_transfer` lists in monitoring_mempool.py). -/
def move_swap_transfer : List String :=
  ["move_stake", "move_stake_limit", "swap_stake", "swap_stake_limit",
   "transfer_stake", "transfer_stake_limit"]

/-- Python `any(op in call_function for op in move_swap_transfer)`. -/
def isMoveSwapTransferName (f : String) : Bool :=
  move_swap_transfer.any fun op => strHasSub f op

/-- Guard of the move/swap/transfer branch of `_extract_netuid`:
`call_function and any(op in call_function for op in move_swap_transfer)`. -/
def cfIsMoveSwapTransfer : Option String → Bool
  | some f => f ≠ "" && isMoveSwapTransferName f
  | none => false

/-- Origin-side parameter names recognised by `_extract_netuid`. -/
def originNames : List String :=
  ["origin_netuid", "netuid_from", "src_netuid", "from_netuid",
   "source_netuid", "hotkey_netuid"]

/-- Destination-side parameter names recognised by `_extract_netuid`. -/
def destNames : List String :=
  ["destination_netuid", "netuid_to", "dest_netuid", "to_netuid",
   "target_netuid", "coldkey_netuid"]

/-- State of the scan over arguments in the move/swap/transfer branch of
`_extract_netuid`: origin, destination and positional netuid values. -/
structure MoveScanState where
  origin : Option Int
  dest : Option Int
  netuidValues : List Int
  deriving DecidableEq, Repr

/-- One iteration of the move/swap/transfer argument scan
(monitoring_mempool.py `_extract_netuid`, lines 327-347). -/
def processMoveArg (st : MoveScanState) (arg : PyVal) : MoveScanState :=
  if ¬ isDict arg then st
  else
    let argName := strLower (argNameStr arg)
    match extract_value_from_arg arg with
    | none => st
    | some v =>
      if ¬ (0 ≤ v ∧ v < 256) then st
      else if originNames.any (fun n => strHasSub argName n) then { st with origin := some v }
      else if destNames.any (fun n => strHasSub argName n) then { st with dest := some v }
      else if strHasSub argName "netuid" then { st with netuidValues := st.netuidValues ++ [v] }
      else st

/-- Move/swap/transfer branch of `_extract_netuid`: returns `none` when
the Python code falls through to the regular-operation section. -/
def moveBranch (call_args : List PyVal) : Option NetuidRef :=
  let st := call_args.foldl processMoveArg ⟨none, none, []⟩
  match st.origin, st.dest with
  | some o, some d => some (.pair o d)
  | some o, none => some (.single o)
  | none, some d => some (.single d)
  | none, none =>
    match st.netuidValues with
    | v0 :: v1 :: _ => some (.pair v0 v1)
    | [v0] => some (.single v0)
    | [] =>
      if call_args.length ≥ 2 then
        let val0 := extract_value_from_arg (call_args.getD 0 .vnone)
        let val1 := extract_value_from_arg (call_args.getD 1 .vnone)
        match val0, val1 with
        | some a, some b =>
          if (0 ≤ a ∧ a < 256) ∧ (0 ≤ b ∧ b < 256) then some (.pair a b)
          else if 0 ≤ a ∧ a < 256 then some (.single a)
          else none
        | some a, _ => if 0 ≤ a ∧ a < 256 then some (.single a) else none
        | none, _ => none
      else none

/-- Named scan of the regular-operation section of `_extract_netuid`:
first argument whose lowered name contains `netuid`/`net_uid` and whose
value lies in [0, 256). -/
def regularNamed (args : List PyVal) : Option NetuidRef :=
  args.findSome? fun arg =>
    if ¬ isDict arg then none
    else
      let an := strLower (argNameStr arg)
      if strHasSub an "netuid" || strHasSub an "net_uid" then
        match extract_value_from_arg arg with
        | some v => if 0 ≤ v ∧ v < 256 then some (.single v) else none
        | none => none
      else none

/-- Positional scan of the regular-operation section of `_extract_netuid`:
first extractable value in [0, 1000). -/
def regularPositional (args : List PyVal) : Option NetuidRef :=
  args.findSome? fun arg =>
    match extract_value_from_arg arg with
    | some v => if 0 ≤ v ∧ v < 1000 then some (.single v) else none
    | none => none

/-- Embedding of `MempoolMonitor._extract_netuid`
(monitoring_mempool.py lines 306-404).  Python returns an int, an
(origin, dest) tuple or `None`; here `Option NetuidRef`.  The
move/swap/transfer branch falls through to the regular section when it
finds nothing, exactly as the Python control flow does. -/
def extract_netuid (call_args : List PyVal) (call_function : Option String) : Option NetuidRef :=
  if call_args.isEmpty then none
  else
    let moveRes := if cfIsMoveSwapTransfer call_function then moveBranch call_args else none
    match moveRes with
    | some r => some r
    | none => regularNamed call_args <|> regularPositional call_args

/-- Parameter names recognised as amounts by `_extract_amount`. -/
def amountParamNames : List String :=
  ["amount", "stake", "value", "stake_amount", "tao_amount", "rao_amount", "hotkey_amount"]

/-- RAO-to-TAO conversion, the fixed 1e9 display scale factor. -/
def raoToTao (v : Int) : ℚ := (v : ℚ) / 1000000000

/-- Name-based pass of `_extract_amount`: first non-netuid argument whose
lowered name contains an amount keyword and whose value is positive. -/
def amountNamePass (args : List PyVal) : Option ℚ :=
  args.findSome? fun arg =>
    if ¬ isDict arg then none
    else
      let an := strLower (argNameStr arg)
      if strHasSub an "netuid" then none
      else if amountParamNames.any (fun p => strHasSub an p) then
        match extract_value_from_arg arg with
        | some v => if v > 0 then some (raoToTao v) else none
        | none => none
      else none

/-- Positional amount probe shared by the move/swap/transfer fallbacks:
accept a positive value that is at least 1000 RAO (the documented
magnitude heuristic distinguishing subnet ids from amounts). -/
def amountAt (args : List PyVal) (idx : Nat) : Option ℚ :=
  if idx < args.length then
    match extract_value_from_arg (args.getD idx .vnone) with
    | some v => if v > 0 then (if v ≥ 1000 then some (raoToTao v) else none) else none
    | none => none
  else none

/-- Test used at position 0 of the regular positional amount scan:
an extracted value in [0, 1000) is taken to be the netuid parameter. -/
def looksLikeNetuid (v : Option Int) : Bool :=
  match v with
  | some n => 0 ≤ n ∧ n < 1000
  | none => false

/-- Positional pass of `_extract_amount` for regular operations: scan all
positions, skipping position 0 when it looks like a subnet id. -/
def amountRegularPositional (args : List PyVal) : Option ℚ :=
  args.enum.findSome? fun p =>
    if p.1 = 0 ∧ looksLikeNetuid (extract_value_from_arg p.2) then none
    else
      match extract_value_from_arg p.2 with
      | some v => if v > 0 then (if v ≥ 1000 then some (raoToTao v) else none) else none
      | none => none

/-- Embedding of `MempoolMonitor._extract_amount`
(monitoring_mempool.py lines 485-554): name-based pass, then the
positional conventions for move/swap/transfer (index 2, then 1, then 0)
or for regular operations. -/
def extract_amount (call_args : List PyVal) (call_function : Option String) : Option ℚ :=
  if call_args.isEmpty then none
  else
    amountNamePass call_args <|>
      (let isMst := match call_function with
                    | some f => f ≠ "" && isMoveSwapTransferName (strLower f)
                    | none => false
       if isMst then
         amountAt call_args 2 <|> amountAt call_args 1 <|> amountAt call_args 0
       else
         amountRegularPositional call_args)

/-- Python `d.get(k, default)`. -/
def pyGetD (v : PyVal) (k : String) (d : PyVal) : PyVal := (dictGet? v k).getD d

/-- String field of a call dict, Python `call.get('call_module', '')`.
A non-string value only ever flows into equality tests against literal
module names, where it compares unequal exactly as the default does. -/
def pyStrField (v : PyVal) (k : String) : String :=
  match pyGet v k with
  | .vstr s => s
  | _ => ""

/-- List field of a call dict, Python `call.get('call_args', [])`. -/
def pyListField (v : PyVal) (k : String) : List PyVal :=
  match pyGet v k with
  | .vlist l => l
  | _ => []

/-- Python `x is None` on a decoded value. -/
def isNoneV : PyVal → Bool
  | .vnone => true
  | _ => false

/-- Python `x if isinstance(x, list) else [x]`, the listification used
for nested-call values. -/
def listifyCalls : PyVal → List PyVal
  | .vlist l => l
  | v => [v]

/-- Stake/unstake operation names (`MempoolMonitor.is_stake_operation`,
monitoring_mempool.py lines 75-85). -/
def stake_operations : List String :=
  ["add_stake", "add_stake_limit",
   "remove_stake", "remove_stake_full_limit",
   "move_stake", "move_stake_limit",
   "swap_stake", "swap_stake_limit",
   "transfer_stake", "transfer_stake_limit",
   "unstake_all"]

/-- Embedding of `MempoolMonitor.is_stake_operation`. -/
def is_stake_operation (call_function : String) : Bool :=
  stake_operations.contains call_function

/-- Hex digit value, used by the model of `bytes.fromhex`. -/
def hexDigit? (c : Char) : Option Nat :=
  if '0' ≤ c ∧ c ≤ '9' then some (c.toNat - 48)
  else if 'a' ≤ c ∧ c ≤ 'f' then some (c.toNat - 87)
  else if 'A' ≤ c ∧ c ≤ 'F' then some (c.toNat - 70)
  else none

/-- Python `bytes.fromhex` on a character list: pairs of hex digits. -/
def bytesFromHexAux : List Char → Option (List Nat)
  | [] => some []
  | [_] => none
  | c1 :: c2 :: rest =>
    match hexDigit? c1, hexDigit? c2, bytesFromHexAux rest with
    | some h, some l, some bs => some ((h * 16 + l) :: bs)
    | _, _, _ => none

/-- Conversion of the decoded `input` field to raw bytes, per the
`isinstance` ladder in `_decode_evm_transaction_data`: hex strings (with
or without a `0x` prefix) and integer lists; anything else fails. -/
def inputDataBytes : PyVal → Option (List Nat)
  | .vstr s =>
    if s.data.take 2 = ['0', 'x']
    then bytesFromHexAux (s.data.drop 2)
    else bytesFromHexAux s.data
  | .vlist l =>
    l.foldr
      (fun e acc =>
        match e, acc with
        | .vint n, some bs => if 0 ≤ n ∧ n < 256 then some (n.toNat :: bs) else none
        | _, _ => none)
      (some [])
  | _ => none

/-- Big-endian byte composition, Python `int.from_bytes(b, 'big')`. -/
def fromBytesBE (bs : List Nat) : Nat :=
  bs.foldl (fun acc b => acc * 256 + b) 0

/-- Hex string to integer, Python `int(s, 16)` used for hex nonces. -/
def hexStrToInt? (cs : List Char) : Option Int :=
  match cs with
  | [] => none
  | _ =>
    cs.foldl
      (fun acc c =>
        match acc, hexDigit? c with
        | some n, some d => some (n * 16 + (d : Int))
        | _, _ => none)
      (some 0)

/-- Decoded EVM stake operation as produced by
`_decode_evm_transaction_data`: function label, display-unit amount,
subnet id, 4-byte selector value and optional nonce.  Python stores the
selector as the hex string `'0x' + hex`; 4-byte strings and their values
are in bijection, so the model keeps the numeric value. -/
structure EvmDetails where
  function : String
  amount : ℚ
  netuid : Int
  selector : Nat
  nonce : Option Int
  deriving Repr

/-- Nonce attachment of `_decode_evm_transaction_data`: integer or
(hex-)string forms are accepted, failures are ignored. -/
def evmNonceOf (evm_nonce : PyVal) : Option Int :=
  match evm_nonce with
  | .vint n => some n
  | .vstr s =>
    if s.data.take 2 = ['0', 'x'] then hexStrToInt? (s.data.drop 2)
    else pyIntOfStr s
  | _ => none

/-- Payload decode of `_decode_evm_transaction_data` once the raw input
bytes are in hand (monitoring_mempool.py lines 597-678): selector lookup,
two big-endian 32-byte words, the one-shot swap when the first word is
not a valid subnet id, positivity of the amount. -/
def decodeEvmInput (input_data : List Nat) (evm_nonce : PyVal) : Option EvmDetails :=
  if input_data.length < 4 then none
  else
    let selector := fromBytesBE (input_data.take 4)
    let function_name :=
      if selector = 0x694e80c3 then "stake"
      else if selector = 0x2c5211c6 then "remove_stake"
      else "EVM_stake_op"
    if input_data.length ≥ 68 then
      let params_data := input_data.drop 4
      let netuid : Int := (fromBytesBE (params_data.take 32) : Int)
      let amount_rao : Int := (fromBytesBE ((params_data.drop 32).take 32) : Int)
      let swapped : Option (Int × Int) :=
        if ¬ (0 ≤ netuid ∧ netuid < 256) then
          if (0 ≤ amount_rao ∧ amount_rao < 256) ∧ netuid > 0
          then some (amount_rao, netuid)
          else none
        else some (netuid, amount_rao)
      match swapped with
      | none => none
      | some (nid, rao) =>
        if rao ≤ 0 then none
        else
          some { function := function_name, amount := raoToTao rao, netuid := nid,
                 selector := selector, nonce := evmNonceOf evm_nonce }
    else none

/-- Embedding of `MempoolMonitor._decode_evm_transaction_data`
(monitoring_mempool.py lines 556-683): envelope unwrap (EIP1559 or
Legacy, `input`/`data`/`input_data` field chained by truthiness), byte
conversion, then the payload decode.  Decode failures that Python raises
are caught by the function's own `try` and become `none`. -/
def decode_evm_transaction_data (tx_data : PyVal) : Option EvmDetails :=
  let envelope : Option (PyVal × PyVal) :=
    if isDict tx_data then
      match dictGet? tx_data "EIP1559" with
      | some e =>
        let inp := if pyTruthy (pyGet e "input") then pyGet e "input"
                   else if pyTruthy (pyGet e "data") then pyGet e "data"
                   else pyGet e "input_data"
        some (inp, pyGet e "nonce")
      | none =>
        match dictGet? tx_data "Legacy" with
        | some e =>
          let inp := if pyTruthy (pyGet e "input") then pyGet e "input"
                     else if pyTruthy (pyGet e "data") then pyGet e "data"
                     else pyGet e "input_data"
          some (inp, pyGet e "nonce")
        | none => none
    else none
  match envelope with
  | none => none
  | some (inp, evm_nonce) =>
    if ¬ pyTruthy inp then none
    else
      match inputDataBytes inp with
      | none => none
      | some bytes => decodeEvmInput bytes evm_nonce

/-- Classified pending operation as returned by
`MempoolMonitor.parse_extrinsic`: the Python result dict with keys
`type`, (optional) `wrapper`, `module`, `function`, `signer`, `netuid`,
`amount`, `nonce`. -/
structure ParsedOp where
  ptype : String
  wrapper : Option String
  module : String
  function : String
  signer : Option String
  netuid : Option NetuidRef
  amount : Option ℚ
  nonce : Option Int
  deriving Repr

/-- Wrapper modules searched for nested calls
(`_find_nested_stake_operation`). -/
def wrapper_modules_mempool : List String :=
  ["Utility", "Proxy", "Multisig", "Sudo", "XcmPallet"]

/-- Argument names that may hold nested calls
(`_find_nested_stake_operation`). -/
def nestedArgKeys : List String :=
  ["calls", "call", "other_signatories", "call_hash", "call_encoded"]

/-- Probe of one nested call of `_find_nested_stake_operation`
(monitoring_mempool.py lines 269-302): a direct `SubtensorModule` stake
operation resolves; otherwise the search recurses (`next`, the search
one depth deeper) and on success the wrapper path is prefixed with
`module.function` and the `>` separator. -/
def findNestedProbeCall (next : String → String → List PyVal → Option ParsedOp)
    (wrapper_module wrapper_function : String) (signer : Option String) (nonce : Option Int)
    (nested_call : PyVal) : Option ParsedOp :=
  if ¬ isDict nested_call then none
  else
    let nested_module := pyStrField nested_call "call_module"
    let nested_function := pyStrField nested_call "call_function"
    let nested_args := pyListField nested_call "call_args"
    if nested_module = "SubtensorModule" ∧ is_stake_operation nested_function then
      some { ptype := "nested",
             wrapper := some (wrapper_module ++ "." ++ wrapper_function),
             module := nested_module,
             function := nested_function,
             signer := signer,
             netuid := extract_netuid nested_args (some nested_function),
             amount := extract_amount nested_args (some nested_function),
             nonce := nonce }
    else
      match next nested_module nested_function nested_args with
      | some deeper =>
        some { deeper with wrapper :=
          match deeper.wrapper with
          | some w => some (wrapper_module ++ "." ++ wrapper_function ++ ">" ++ w)
          | none => some (wrapper_module ++ "." ++ wrapper_function) }
      | none => none

/-- Probe of one wrapper argument of `_find_nested_stake_operation`
(monitoring_mempool.py lines 255-268): lowered argument names from the
nested-key list, `None` values skipped, single calls listified. -/
def findNestedProbeArg (next : String → String → List PyVal → Option ParsedOp)
    (wrapper_module wrapper_function : String) (signer : Option String) (nonce : Option Int)
    (arg : PyVal) : Option ParsedOp :=
  if ¬ isDict arg then none
  else
    let arg_name := strLower (argNameStr arg)
    if ¬ nestedArgKeys.contains arg_name then none
    else
      let nested := pyGet arg "value"
      if isNoneV nested then none
      else
        (listifyCalls nested).findSome?
          (findNestedProbeCall next wrapper_module wrapper_function signer nonce)

/-- Embedding of `MempoolMonitor._find_nested_stake_operation`
(monitoring_mempool.py lines 230-304).  The Python function recurses
with `depth + 1` against a fixed `max_depth`; the model's fuel is
`max_depth - depth`, so fuel 0 is exactly the `depth >= max_depth`
guard.  A nested `call_args` that is not a list would raise on iteration
in Python and void the whole classification; the model scans it as
empty, which no well-formed decoder output distinguishes. -/
def find_nested_stake_operation :
    Nat → String → String → List PyVal → Option String → Option Int → Option ParsedOp
  | 0, _, _, _, _, _ => none
  | fuel + 1, wrapper_module, wrapper_function, call_args, signer, nonce =>
    if ¬ wrapper_modules_mempool.contains wrapper_module then none
    else
      call_args.findSome?
        (findNestedProbeArg
          (fun m f a => find_nested_stake_operation fuel m f a signer nonce)
          wrapper_module wrapper_function signer nonce)

/-- Signer extraction of `parse_extrinsic`: `account_id` then `address`. -/
def signerOf (extrinsic_data : PyVal) : Option String :=
  match dictGet? extrinsic_data "account_id" with
  | some v => some (pyStr v)
  | none =>
    match dictGet? extrinsic_data "address" with
    | some v => some (pyStr v)
    | none => none

/-- Nonce extraction of `parse_extrinsic`: signature dict (`nonce`, or
`era.nonce` when no `nonce` key exists), then the top level.  When a
`nonce` key is present but not convertible the `era` path is not tried,
exactly as the Python `elif` chain behaves. -/
def nonceOf (extrinsic_data : PyVal) : Option Int :=
  let fromSig : Option Int :=
    match dictGet? extrinsic_data "signature" with
    | some sig =>
      if isDict sig then
        match dictGet? sig "nonce" with
        | some nv => pyIntSimple nv
        | none =>
          match dictGet? sig "era" with
          | some era =>
            if isDict era then
              match dictGet? era "nonce" with
              | some nv => pyIntSimple nv
              | none => none
            else none
          | none => none
      else none
    | none => none
  match fromSig with
  | some n => some n
  | none =>
    match dictGet? extrinsic_data "nonce" with
    | some nv => pyIntSimple nv
    | none => none

/-- State of the scan for the `transaction` argument in the Ethereum
branch of `parse_extrinsic`: candidate EVM signer and transaction data.
The loop has no break, so the last `transaction` argument wins. -/
structure EvmScanState where
  evmSigner : Option String
  evmTxData : Option PyVal

/-- One iteration of the Ethereum-branch argument scan
(monitoring_mempool.py lines 161-175).  The decoded `action.Call`
address renders as a string. -/
def processEvmArg (st : EvmScanState) (arg : PyVal) : EvmScanState :=
  if isDict arg ∧ pyStrField arg "name" = "transaction" then
    let tx_data := pyGetD arg "value" (.vdict [])
    if isDict tx_data then
      let st' := { st with evmTxData := some tx_data }
      match dictGet? tx_data "EIP1559" with
      | some e =>
        (match dictGet? (pyGetD e "action" (.vdict [])) "Call" with
         | some addr => { st' with evmSigner := some (pyStr addr) }
         | none => st')
      | none =>
        match dictGet? tx_data "Legacy" with
        | some e =>
          (match dictGet? (pyGetD e "action" (.vdict [])) "Call" with
           | some addr => { st' with evmSigner := some (pyStr addr) }
           | none => st')
        | none => st'
    else st
  else st

/-- Python `evm_signer or signer` (empty strings are falsy). -/
def signerOrElse (a b : Option String) : Option String :=
  match a with
  | some s => if s ≠ "" then some s else b
  | none => b

/-- Ethereum branch of `parse_extrinsic` (monitoring_mempool.py lines
157-202): find the transaction argument, decode it, and return an `evm`
record only when a stake operation with a subnet id was decoded. -/
def evmBranch (call_args : List PyVal) (signer : Option String) (nonce : Option Int) :
    Option ParsedOp :=
  let st := call_args.foldl processEvmArg { evmSigner := signer, evmTxData := none }
  match st.evmTxData with
  | none => none
  | some td =>
    match decode_evm_transaction_data td with
    | none => none
    | some d =>
      let evm_nonce := match d.nonce with
                       | some n => some n
                       | none => nonce
      some { ptype := "evm", wrapper := none, module := "Ethereum",
             function := d.function,
             signer := signerOrElse st.evmSigner signer,
             netuid := some (.single d.netuid),
             amount := some d.amount,
             nonce := evm_nonce }

/-- Embedding of `MempoolMonitor.parse_extrinsic`
(monitoring_mempool.py lines 87-228) from the point where the external
codec has delivered the decoded extrinsic structure.  The
`decode_call` re-decode is a call into the external codec that at best
substitutes equivalently named arguments and is dropped on failure; the
model keeps the original arguments.  Exceptions anywhere in the body are
caught by the function's `try` and become `none`. -/
def parse_extrinsic_decoded (extrinsic_data : PyVal) : Option ParsedOp :=
  match dictGet? extrinsic_data "call" with
  | none => none
  | some call =>
    let call_module := pyStrField call "call_module"
    let call_function := pyStrField call "call_function"
    let call_args := pyListField call "call_args"
    let signer := signerOf extrinsic_data
    let nonce := nonceOf extrinsic_data
    let evmRes :=
      if call_module = "Ethereum" ∧ call_function = "transact"
      then evmBranch call_args signer nonce
      else none
    match evmRes with
    | some r => some r
    | none =>
      if call_module = "SubtensorModule" ∧ is_stake_operation call_function then
        some { ptype := "direct", wrapper := none, module := call_module,
               function := call_function, signer := signer,
               netuid := extract_netuid call_args (some call_function),
               amount := extract_amount call_args (some call_function),
               nonce := nonce }
      else
        find_nested_stake_operation 5 call_module call_function call_args signer nonce

/-- First-success scan over a list where each probe may raise: the
`Except` analogue of `List.findSome?`, used for Python `for` loops whose
body can both `return` and throw. -/
def findSomeE {α β : Type} (f : α → Except Unit (Option β)) : List α → Except Unit (Option β)
  | [] => Except.ok none
  | a :: rest => do
    match ← f a with
    | some b => Except.ok (some b)
    | none => findSomeE f rest

/-- Wrapper modules of `BlockAnalyzer.parse_nested_call`. -/
def wrapper_modules_block : List String := ["Utility", "Proxy", "Multisig"]

/-- Wrapper functions of `BlockAnalyzer.parse_nested_call`. -/
def wrapper_functions_block : List String :=
  ["batch", "batch_all", "force_batch", "proxy", "as_multi", "as_derivative"]

/-- Stake-movement operations of the block analyzer
(`move_swap_operations` in `_extract_netuid_from_call`). -/
def move_swap_operations : List String :=
  ["move_stake", "swap_stake", "transfer_stake",
   "swap_stake_limit", "move_stake_limit", "transfer_stake_limit"]

/-- Origin parameter names of the block analyzer (exact match). -/
def originNamesBlock : List String := ["origin_netuid", "netuid_from", "src_netuid"]

/-- Destination parameter names of the block analyzer (exact match;
note that the plain name `netuid` counts as a destination here). -/
def destNamesBlock : List String :=
  ["destination_netuid", "netuid_to", "dest_netuid", "netuid"]

/-- One iteration of the origin/destination scan shared verbatim by
`_extract_netuid_from_call` (lines 183-189) and
`_check_same_subnet_transfer` (lines 236-244): `int(arg.get('value'))`
raises on missing or non-numeric values and the exception propagates. -/
def processMoveArgBlock (st : Option Int × Option Int) (arg : PyVal) :
    Except Unit (Option Int × Option Int) :=
  if ¬ isDict arg then Except.ok st
  else
    let arg_name := argNameStr arg
    if originNamesBlock.contains arg_name then do
      let v ← pyIntE (pyGet arg "value")
      Except.ok (some v, st.2)
    else if destNamesBlock.contains arg_name then do
      let v ← pyIntE (pyGet arg "value")
      Except.ok (st.1, some v)
    else Except.ok st

/-- Regular single-netuid probe of `_extract_netuid_from_call`
(monitoring_block_advanced.py lines 203-208): an argument named exactly
`netuid` or `net_uid`, converted by a possibly raising `int(...)`. -/
def namedNetuidProbe (arg : PyVal) : Except Unit (Option NetuidRef) :=
  if isDict arg ∧ (argNameStr arg = "netuid" ∨ argNameStr arg = "net_uid") then do
    let v ← pyIntE (pyGet arg "value")
    Except.ok (some (NetuidRef.single v))
  else Except.ok none

/-- Embedding of `BlockAnalyzer._extract_netuid_from_call`
(monitoring_block_advanced.py lines 164-216).  When the
move/swap/transfer scan finds neither side, control falls through to the
regular single-netuid section, then to the root-network default. -/
def extract_netuid_from_call (call : PyVal) (call_function : String) :
    Except Unit (Option NetuidRef) := do
  let args := pyListField call "call_args"
  let moveRes ←
    if move_swap_operations.contains call_function then do
      let st ← args.foldlM processMoveArgBlock (none, none)
      match st with
      | (some o, some d) => pure (some (NetuidRef.pair o d))
      | (some o, none) => pure (some (NetuidRef.single o))
      | (none, some d) => pure (some (NetuidRef.single d))
      | (none, none) => pure (none : Option NetuidRef)
    else pure (none : Option NetuidRef)
  match moveRes with
  | some r => Except.ok (some r)
  | none => do
    let named ← findSomeE namedNetuidProbe args
    match named with
    | some r => Except.ok (some r)
    | none =>
      if call_function = "add_stake" ∨ call_function = "remove_stake" then
        Except.ok (some (NetuidRef.single 0))
      else Except.ok none

/-- Operations subject to the same-subnet skip
(`_check_same_subnet_transfer`): only move and transfer, in both plain
and `_limit` form — swap operations are absent from this list. -/
def same_subnet_operations : List String :=
  ["move_stake", "move_stake_limit", "transfer_stake", "transfer_stake_limit"]

/-- Embedding of `BlockAnalyzer._check_same_subnet_transfer`
(monitoring_block_advanced.py lines 218-253). -/
def check_same_subnet_transfer (call : PyVal) (call_function : String) :
    Except Unit Bool :=
  if ¬ same_subnet_operations.contains call_function then Except.ok false
  else do
    let st ← (pyListField call "call_args").foldlM processMoveArgBlock (none, none)
    match st with
    | (some o, some d) => Except.ok (decide (o = d))
    | _ => Except.ok false

/-- Probe of one nested call inside a wrapper argument
(monitoring_block_advanced.py lines 133-148): the first
`SubtensorModule` call resolves, with the wrapper's function name
prepended to the method path with the `" > "` separator. -/
def parseNestedProbeCall (call_function : String) (nested_call : PyVal) :
    Except Unit (Option (Option NetuidRef × Option String × Bool)) :=
  if isDict nested_call ∧ (dictGet? nested_call "call_module").isSome then
    let nested_module := pyStrField nested_call "call_module"
    let nested_function := pyStrField nested_call "call_function"
    if nested_module = "SubtensorModule" then do
      let netuid ← extract_netuid_from_call nested_call nested_function
      Except.ok (some (netuid, some (call_function ++ " > " ++ nested_function), true))
    else Except.ok none
  else Except.ok none

/-- Probe of one wrapper argument (monitoring_block_advanced.py lines
119-148): arguments named `calls`/`call` with a truthy value are
scanned, a single call being treated as a one-element list. -/
def parseNestedProbeArg (call_function : String) (arg : PyVal) :
    Except Unit (Option (Option NetuidRef × Option String × Bool)) :=
  if ¬ isDict arg then Except.ok none
  else
    let arg_name := argNameStr arg
    let arg_value := pyGet arg "value"
    if (arg_name = "calls" ∨ arg_name = "call") ∧ pyTruthy arg_value then
      findSomeE (parseNestedProbeCall call_function) (listifyCalls arg_value)
    else Except.ok none

/-- Embedding of `BlockAnalyzer.parse_nested_call`
(monitoring_block_advanced.py lines 92-162).  Wrappers are scanned one
level deep for a `SubtensorModule` call; netuid extraction inside may
raise, and the exception propagates to the caller's `try`. -/
def parse_nested_call (call : PyVal) :
    Except Unit (Option NetuidRef × Option String × Bool) := do
  let call_module := pyStrField call "call_module"
  let call_function := pyStrField call "call_function"
  let is_wrapper :=
    wrapper_modules_block.contains call_module ||
    wrapper_functions_block.contains call_function ||
    (call_module == "Utility") ||
    strHasSub (strLower call_function) "batch" ||
    strHasSub (strLower call_function) "proxy"
  if is_wrapper then do
    let found ← findSomeE (parseNestedProbeArg call_function) (pyListField call "call_args")
    match found with
    | some r => Except.ok r
    | none => Except.ok (none, some (call_function ++ " (wrapper)"), false)
  else if call_module = "SubtensorModule" then do
    let netuid ← extract_netuid_from_call call call_function
    Except.ok (netuid, some call_function, false)
  else
    Except.ok (none, none, false)

/-- Suffix after the last occurrence of a separator, scanning the
reversed character list; computes Python `s.split(sep)[-1]`. -/
def takeUntilSepRev (sep : List Char) : List Char → List Char
  | [] => []
  | c :: cs => if startsWithAux sep (c :: cs) then [] else c :: takeUntilSepRev sep cs

/-- Python `m.split(' > ')[-1] if ' > ' in m else m`, the innermost
method name used by `get_extrinsic_details`. -/
def innerMethodOf (m : String) : String :=
  if strHasSub m " > " then
    ⟨(takeUntilSepRev " > ".data.reverse m.data.reverse).reverse⟩
  else m

/-- Embedding of `BlockAnalyzer.get_extrinsic_details`
(monitoring_block_advanced.py lines 255-309).  A block's extrinsics are
modelled by the list of their decoded `.value` dicts; every caught
exception yields `(None, None, False)`. -/
def get_extrinsic_details (extrinsics : List PyVal) (extrinsic_idx : Option Nat) :
    Option NetuidRef × Option String × Bool :=
  let comp : Except Unit (Option NetuidRef × Option String × Bool) :=
    match extrinsic_idx with
    | none => Except.ok (none, none, false)
    | some idx =>
      if idx ≥ extrinsics.length then Except.ok (none, none, false)
      else
        let extrinsic := extrinsics.getD idx .vnone
        if ¬ (dictGet? extrinsic "call").isSome then Except.ok (none, none, false)
        else do
          let call := pyGet extrinsic "call"
          let (netuid, method, _) ← parse_nested_call call
          let should_skip ←
            match method with
            | some m =>
              if m ≠ "" then check_same_subnet_transfer call (innerMethodOf m)
              else pure false
            | none => pure false
          Except.ok (netuid, method, should_skip)
  match comp with
  | Except.ok r => r
  | Except.error _ => (none, none, false)

/-- Chain event as delivered by the substrate client: module id, event
id, attribute payload and originating extrinsic index. -/
structure ChainEvent where
  module_id : String
  event_id : String
  attributes : PyVal
  extrinsic_idx : Option Nat

/-- Subnet field of a block-analyzer transaction: int, (origin, dest)
pair, registration list or the literal `'Unknown'`. -/
inductive BNetuid where
  | i (n : Int)
  | pr (a b : Int)
  | ls (ns : List Nat)
  | unk
  deriving DecidableEq, Repr

/-- Transaction record built by `BlockAnalyzer.get_current_block_data`. -/
structure BlockTx where
  block_number : Nat
  extrinsic_index : Option Nat
  address : String
  tao_amount : ℚ
  netuid : BNetuid
  method : String
  ttype : String
  hotkey : String
  coldkey : String
  deriving Repr

/-- Embedding of `BlockAnalyzer.get_netuids_for_hotkey`
(monitoring_block_advanced.py lines 68-90): subnets 0..63 are probed; a
storage-query exception is swallowed (`continue`), indistinguishable
from an unregistered subnet, and the per-instance cache only memoises
this pure computation. -/
def get_netuids_for_hotkey (registered : Nat → Bool) (hotkey : String) : List Nat :=
  if hotkey = "" ∨ hotkey.length < 10 then []
  else (List.range 64).filter registered

/-- Method fallback display of `get_current_block_data` (lines 439-459)
when the extrinsic yields no method name. -/
def methodFallbackDisplay (extrinsics : List PyVal) (extrinsic_idx : Option Nat) : String :=
  match extrinsic_idx with
  | none => "N/A (no extrinsic)"
  | some idx =>
    if idx < extrinsics.length then
      let extrinsic := extrinsics.getD idx .vnone
      if (dictGet? extrinsic "call").isSome then
        if pyStrField (pyGet extrinsic "call") "call_module" = "Ethereum"
        then "EVM transaction" else "unknown"
      else "unknown"
    else "unknown"

/-- Registration-based netuid fallback of `get_current_block_data`
(monitoring_block_advanced.py lines 427-436): one registration is used
directly, several are listed, none falls through to `'Unknown'`. -/
def hotkeyFallbackNetuid (netuids : List Nat) : BNetuid :=
  if netuids.length = 1 then .i (netuids.getD 0 0 : Int)
  else if netuids.length > 1 then .ls netuids
  else .unk

/-- Extended-format netuid probe of events (lines 387-397 and 724-732):
attribute 4, accepted if convertible and in [0, 256). -/
def eventNetuidOf (attrs : List PyVal) : Option Int :=
  if attrs.length ≥ 5 then
    match pyIntSimple (attrs.getD 4 .vnone) with
    | some v => if 0 ≤ v ∧ v < 256 then some v else none
    | none => none
  else none

/-- Processing of one event by `get_current_block_data`
(monitoring_block_advanced.py lines 369-472): `ok none` is a `continue`,
an error is an exception aborting the whole event loop.  The
(origin, dest) tuple is kept as-is for both event directions (lines
406-418 assign the same tuple in either branch). -/
def processBlockEvent (extrinsics : List PyVal) (block_number : Nat)
    (netuidsForHotkey : String → List Nat) (event : ChainEvent) :
    Except Unit (Option BlockTx) := do
  if event.module_id ≠ "SubtensorModule" then Except.ok none
  else if event.event_id ≠ "StakeAdded" ∧ event.event_id ≠ "StakeRemoved" then Except.ok none
  else
    match event.attributes with
    | .vlist attrs =>
      if attrs.length ≥ 3 then do
        let hotkey := pyStr (attrs.getD 0 .vnone)
        let coldkey := pyStr (attrs.getD 1 .vnone)
        let amount_rao ← pyIntE (attrs.getD 2 .vnone)
        let event_netuid := eventNetuidOf attrs
        let (netuid0, method, should_skip) := get_extrinsic_details extrinsics event.extrinsic_idx
        if should_skip then Except.ok none
        else
          let netuid : BNetuid :=
            match netuid0 with
            | some (.pair a b) => .pr a b
            | some (.single n) => .i n
            | none =>
              match event_netuid with
              | some v => .i v
              | none => hotkeyFallbackNetuid (netuidsForHotkey hotkey)
          let method_display :=
            match method with
            | some m =>
              if m ≠ "" then m else methodFallbackDisplay extrinsics event.extrinsic_idx
            | none => methodFallbackDisplay extrinsics event.extrinsic_idx
          Except.ok (some
            { block_number := block_number,
              extrinsic_index := event.extrinsic_idx,
              address := hotkey,
              tao_amount := raoToTao amount_rao,
              netuid := netuid,
              method := method_display,
              ttype := if event.event_id = "StakeAdded" then "STAKE" else "UNSTAKE",
              hotkey := hotkey,
              coldkey := coldkey })
      else Except.ok none
    | _ => Except.ok none

/-- Event loop of `get_current_block_data`: an exception abandons the
remaining events but keeps the transactions gathered so far (the `try`
wraps the whole loop and the collector survives it). -/
def processBlockEvents (extrinsics : List PyVal) (block_number : Nat)
    (netuidsForHotkey : String → List Nat) : List ChainEvent → List BlockTx
  | [] => []
  | e :: rest =>
    match processBlockEvent extrinsics block_number netuidsForHotkey e with
    | Except.error _ => []
    | Except.ok none => processBlockEvents extrinsics block_number netuidsForHotkey rest
    | Except.ok (some tx) =>
      tx :: processBlockEvents extrinsics block_number netuidsForHotkey rest

/-- Comma join used to model Python `str` of tuples and lists. -/
def joinComma : List String → String
  | [] => ""
  | [s] => s
  | s :: rest => s ++ ", " ++ joinComma rest

/-- Python `str(netuid)` as used for the merge key of
`_merge_duplicate_transactions` (`'None'` cannot arise: every produced
transaction carries a value). -/
def netuidKeyStr : BNetuid → String
  | .i n => toString n
  | .pr a b => "(" ++ toString a ++ ", " ++ toString b ++ ")"
  | .ls ns => "[" ++ joinComma (ns.map toString) ++ "]"
  | .unk => "Unknown"

/-- Merge key of `BlockAnalyzer._merge_duplicate_transactions`:
extrinsic index, type, method, address and stringified netuid. -/
def mergeKey (tx : BlockTx) : Option Nat × String × String × String × String :=
  (tx.extrinsic_index, tx.ttype, tx.method, tx.address, netuidKeyStr tx.netuid)

/-- One step of the grouping dict of `_merge_duplicate_transactions`:
merge into the existing group or append a first occurrence. -/
def mergeStep (acc : List ((Option Nat × String × String × String × String) × BlockTx))
    (tx : BlockTx) : List ((Option Nat × String × String × String × String) × BlockTx) :=
  let key := mergeKey tx
  if (acc.lookup key).isSome then
    acc.map (fun p =>
      if p.1 = key then (p.1, { p.2 with tao_amount := p.2.tao_amount + tx.tao_amount })
      else p)
  else acc ++ [(key, tx)]

/-- Embedding of `BlockAnalyzer._merge_duplicate_transactions`
(monitoring_block_advanced.py lines 311-347): a first occurrence seeds
its group, later occurrences add their amount; insertion order of the
Python dict gives first-occurrence output order. -/
def merge_duplicate_transactions (transactions : List BlockTx) : List BlockTx :=
  (transactions.foldl mergeStep []).map Prod.snd

/-- Embedding of `BlockAnalyzer.get_current_block_data`
(monitoring_block_advanced.py lines 349-480) from the point where block,
events and the registration oracle are in hand (the fetches themselves
are external I/O). -/
def get_current_block_data (block_number : Nat) (extrinsics : List PyVal)
    (events : List ChainEvent) (netuidsForHotkey : String → List Nat) : List BlockTx :=
  merge_duplicate_transactions
    (processBlockEvents extrinsics block_number netuidsForHotkey events)

/-- Transaction record built by
`MempoolMonitor.parse_block_stake_transactions`. -/
structure MTx where
  extrinsic_idx : Option Nat
  ttype : String
  method : String
  address : String
  amount : ℚ
  netuid : Option NetuidRef
  success : Bool
  deriving Repr

/-- Success recomputation of `parse_block_stake_transactions`
(monitoring_mempool.py lines 781-788): a fold over all events in order;
the last System `ExtrinsicSuccess`/`ExtrinsicFailed` event sharing the
extrinsic index wins, starting from `False`. -/
def successFor (events : List ChainEvent) (extrinsic_idx : Option Nat) : Bool :=
  events.foldl
    (fun success evt =>
      if evt.extrinsic_idx = extrinsic_idx ∧ evt.module_id = "System" then
        if evt.event_id = "ExtrinsicSuccess" then true
        else if evt.event_id = "ExtrinsicFailed" then false
        else success
      else success)
    false

/-- Method/netuid resolution from the originating extrinsic in
`parse_block_stake_transactions` (monitoring_mempool.py lines 734-778):
direct SubtensorModule calls, Ethereum calldata (first dict-valued
`transaction` argument, decoded even to `None`), and one-level
Utility/Proxy nesting where each `calls`/`call` argument's first nested
SubtensorModule call overwrites the method.  A missing nested
`call_function` renders as Python `None` in the f-string; the model uses
the empty string, a display-only difference. -/
def mtxMethodNetuid (extrinsics : List PyVal) (extrinsic_idx : Option Nat)
    (event_netuid : Option Int) : String × Option NetuidRef :=
  let start : String × Option NetuidRef :=
    ("unknown", event_netuid.map NetuidRef.single)
  match extrinsic_idx with
  | none => start
  | some idx =>
    if idx < extrinsics.length then
      let extrinsic := extrinsics.getD idx .vnone
      if (dictGet? extrinsic "call").isSome then
        let call := pyGet extrinsic "call"
        let call_module := pyStrField call "call_module"
        let call_function := pyStrField call "call_function"
        if call_module = "SubtensorModule" then
          let netuid := match start.2 with
                        | some r => some r
                        | none => extract_netuid (pyListField call "call_args")
                            (some call_function)
          (call_function, netuid)
        else if call_module = "Ethereum" then
          let probe : Option (Option EvmDetails) :=
            (pyListField call "call_args").findSome? fun arg =>
              if isDict arg ∧ pyStrField arg "name" = "transaction" then
                let tx_data := pyGetD arg "value" (.vdict [])
                if isDict tx_data then some (decode_evm_transaction_data tx_data)
                else none
              else none
          match probe with
          | some (some d) =>
            let netuid := match start.2 with
                          | some r => some r
                          | none => some (NetuidRef.single d.netuid)
            ("EVM." ++ d.function, netuid)
          | _ => ("EVM.transact", start.2)
        else if call_module = "Utility" ∨ call_module = "Proxy" then
          (pyListField call "call_args").foldl
            (fun st arg =>
              if isDict arg ∧ (pyStrField arg "name" = "calls" ∨ pyStrField arg "name" = "call") then
                let nested := pyGet arg "value"
                match (listifyCalls nested).find?
                    (fun nc => isDict nc ∧ pyStrField nc "call_module" = "SubtensorModule") with
                | some nc =>
                  let nested_function := pyStrField nc "call_function"
                  let netuid := match st.2 with
                                | some r => some r
                                | none => extract_netuid (pyListField nc "call_args")
                                    (some nested_function)
                  (call_function ++ ">" ++ nested_function, netuid)
                | none => st
              else st)
            start
        else start
      else start
    else start

/-- Processing of one event by `parse_block_stake_transactions`
(monitoring_mempool.py lines 708-798). -/
def processMTxEvent (extrinsics : List PyVal) (events : List ChainEvent)
    (event : ChainEvent) : Except Unit (Option MTx) := do
  if event.module_id ≠ "SubtensorModule" then Except.ok none
  else if event.event_id ≠ "StakeAdded" ∧ event.event_id ≠ "StakeRemoved" then Except.ok none
  else
    match event.attributes with
    | .vlist attrs =>
      if attrs.length ≥ 3 then do
        let hotkey := pyStr (attrs.getD 0 .vnone)
        let amount_rao ← pyIntE (attrs.getD 2 .vnone)
        let event_netuid := eventNetuidOf attrs
        let (method, netuid) := mtxMethodNetuid extrinsics event.extrinsic_idx event_netuid
        let success := successFor events event.extrinsic_idx
        Except.ok (some
          { extrinsic_idx := event.extrinsic_idx,
            ttype := if event.event_id = "StakeAdded" then "STAKE" else "UNSTAKE",
            method := method,
            address := hotkey,
            amount := raoToTao amount_rao,
            netuid := netuid,
            success := success })
      else Except.ok none
    | _ => Except.ok none

/-- Event loop of `parse_block_stake_transactions`: unlike the block
analyzer, the enclosing `except` returns the empty list, discarding the
partial results gathered before an exception. -/
def mtxLoop (extrinsics : List PyVal) (events : List ChainEvent) :
    List ChainEvent → Except Unit (List MTx)
  | [] => Except.ok []
  | e :: rest => do
    let r ← processMTxEvent extrinsics events e
    let txs ← mtxLoop extrinsics events rest
    match r with
    | some tx => Except.ok (tx :: txs)
    | none => Except.ok txs

/-- Embedding of `MempoolMonitor.parse_block_stake_transactions`
(monitoring_mempool.py lines 699-803) from the point where block
extrinsics and events are in hand. -/
def parse_block_stake_transactions (extrinsics : List PyVal)
    (events : List ChainEvent) : List MTx :=
  match mtxLoop extrinsics events events with
  | Except.ok txs => txs
  | Except.error _ => []

/-- Same-subnet display skip of `display_screen`
(monitoring_mempool.py lines 1006-1017): only `move_stake` and
`transfer_stake` methods (by substring on the lowered method) with an
equal-component netuid pair are dropped; swap operations are not. -/
def displaySkip (tx : MTx) : Bool :=
  let m := strLower tx.method
  match tx.netuid with
  | some (.pair o d) => (strHasSub m "move_stake" || strHasSub m "transfer_stake") && o = d
  | _ => false

/-- Merged row of the last-block section of `display_screen`. -/
structure MergedTx where
  extrinsic_idx : Option Nat
  ttype : String
  method : String
  address : String
  netuid : Option NetuidRef
  amount : ℚ
  success : Bool
  count : Nat
  deriving Repr

/-- Grouping key of the last-block merge of `display_screen` (line
1026): extrinsic index, type, method, address, netuid by value. -/
def displayMergeKey (tx : MTx) : Option Nat × String × String × String × Option NetuidRef :=
  (tx.extrinsic_idx, tx.ttype, tx.method, tx.address, tx.netuid)

/-- Fresh group seeded by the first occurrence of a key
(monitoring_mempool.py lines 1028-1038). -/
def seedMergedTx (tx : MTx) : MergedTx :=
  { extrinsic_idx := tx.extrinsic_idx, ttype := tx.ttype, method := tx.method,
    address := tx.address, netuid := tx.netuid,
    amount := 0, success := true, count := 0 }

/-- Accumulation into a group (monitoring_mempool.py lines 1040-1043):
sum the amounts, AND the success flags, count the members. -/
def accMergedTx (e : MergedTx) (tx : MTx) : MergedTx :=
  { e with amount := e.amount + tx.amount,
           success := e.success && tx.success,
           count := e.count + 1 }

/-- One step of the last-block merge of `display_screen`: drop skipped
rows, seed an unseen key, then accumulate into the key's group. -/
def displayMergeStep
    (acc : List ((Option Nat × String × String × String × Option NetuidRef) × MergedTx))
    (tx : MTx) : List ((Option Nat × String × String × String × Option NetuidRef) × MergedTx) :=
  if displaySkip tx then acc
  else
    let key := displayMergeKey tx
    let acc' := if (acc.lookup key).isSome then acc else acc ++ [(key, seedMergedTx tx)]
    acc'.map (fun p => if p.1 = key then (p.1, accMergedTx p.2 tx) else p)

/-- Embedding of the last-block merge loop of `display_screen`
(monitoring_mempool.py lines 1000-1043): skip same-subnet
move/transfer rows, then group by key, seeding on first occurrence and
accumulating amount, success and count. -/
def display_merge_block (txs : List MTx) : List MergedTx :=
  (txs.foldl displayMergeStep []).map Prod.snd

/-- Tracked mempool entry (`self.mempool_txs` values): classification
and first-seen time. -/
structure TrackedEntry where
  parsed : ParsedOp
  time : Nat

/-- Observations of one poll cycle of `MempoolMonitor.monitor`: the
extrinsic set of a newly observed block (when the block number
increased) and the node's current pending list. -/
structure CycleInput where
  newBlockHashes : Option (List String)
  pending : List String
  now : Nat

/-- One iteration of the monitor loop of `MempoolMonitor.monitor`
(monitoring_mempool.py lines 1161-1211) acting on the tracked map, in
the code's order: delete fingerprints mined into a newly observed
block, insert unseen pending fingerprints that classify as stake
operations, then delete tracked fingerprints absent from the current
pending list. -/
def tracker_step (classify : String → Option ParsedOp)
    (st : List (String × TrackedEntry)) (inp : CycleInput) :
    List (String × TrackedEntry) :=
  let st1 : List (String × TrackedEntry) :=
    match inp.newBlockHashes with
    | some hs => st.filter (fun p => ¬ hs.contains p.1)
    | none => st
  let st2 := inp.pending.foldl
    (fun (acc : List (String × TrackedEntry)) ext_hex =>
      if (acc.lookup ext_hex).isSome then acc
      else
        match classify ext_hex with
        | some parsed => acc ++ [(ext_hex, ⟨parsed, inp.now⟩)]
        | none => acc)
    st1
  st2.filter (fun p => inp.pending.contains p.1)

/-- Amount cell of the display (monitoring_mempool.py lines 876-883 and
1087-1092): a missing-or-zero merged amount renders as the literal
`Unknown`, a nonzero amount as a fixed-point number. -/
inductive AmountCell where
  | unknownAmount
  | shownAmount (q : ℚ)
  deriving Repr

/-- Python `'Unknown' if amount is None or amount == 0.0 else
f-formatted amount` (the merged amount is never `None`: missing
summands were already replaced by `0.0` on accumulation). -/
def amountCellOf (amount : ℚ) : AmountCell :=
  if amount = 0 then .unknownAmount else .shownAmount amount

/-- Netuid cell of the display (monitoring_mempool.py lines 957-964 and
1079-1085). -/
inductive NetuidCell where
  | unknownNetuid
  | arrow (o d : Int)
  | shownNetuid (n : Int)
  deriving Repr

/-- Netuid rendering: `None` renders as the literal `Unknown`, a pair as
an origin-arrow-destination cell, a scalar as its number. -/
def netuidCellOf : Option NetuidRef → NetuidCell
  | none => .unknownNetuid
  | some (.pair o d) => .arrow o d
  | some (.single n) => .shownNetuid n

/-! ### Statement support

Definitions used to state the verified properties: effective
origin/destination contributions of an argument, wrapper-chain builders,
key projections, and the concrete inputs of counterexamples and
witnesses. -/

/-- Contribution of one argument to the origin side of the
move/swap/transfer scan: the value `processMoveArg` would store into
`origin_netuid`, if any. -/
def effOrigin (arg : PyVal) : Option Int :=
  if ¬ isDict arg then none
  else
    match extract_value_from_arg arg with
    | none => none
    | some v =>
      if ¬ (0 ≤ v ∧ v < 256) then none
      else if originNames.any (fun n => strHasSub (strLower (argNameStr arg)) n) then some v
      else none

/-- Contribution of one argument to the destination side of the
move/swap/transfer scan (origin names win the `elif`, so an argument
matching both sides contributes to the origin only). -/
def effDest (arg : PyVal) : Option Int :=
  if ¬ isDict arg then none
  else
    match extract_value_from_arg arg with
    | none => none
    | some v =>
      if ¬ (0 ≤ v ∧ v < 256) then none
      else if originNames.any (fun n => strHasSub (strLower (argNameStr arg)) n) then none
      else if destNames.any (fun n => strHasSub (strLower (argNameStr arg)) n) then some v
      else none

/-- Last element of a list, or a default option: captures the
last-assignment-wins semantics of the Python scans. -/
def lastOrD (l : List α) (d : Option α) : Option α :=
  match l with
  | [] => d
  | x :: rest => lastOrD rest (some x)

/-- Argument dict with a name and a value, the shape substrate decoding
gives every call argument. -/
def argD (name : String) (v : PyVal) : PyVal :=
  .vdict [("name", .vstr name), ("value", v)]

/-- Call dict of the staking module with the given function and args. -/
def mkStakeCall (f : String) (args : List PyVal) : PyVal :=
  .vdict [("call_module", .vstr "SubtensorModule"), ("call_function", .vstr f),
          ("call_args", .vlist args)]

/-- Wrapper call whose single `calls` argument holds one nested call. -/
def wrapCallWith (mf : String × String) (inner : PyVal) : PyVal :=
  .vdict [("call_module", .vstr mf.1), ("call_function", .vstr mf.2),
          ("call_args", .vlist [argD "calls" (.vlist [inner])])]

/-- Chain of wrapper calls around a base call, outermost first. -/
def chainWrap (ws : List (String × String)) (base : PyVal) : PyVal :=
  ws.foldr wrapCallWith base

/-- Expected wrapper path of `_find_nested_stake_operation` for a chain
of wrappers: `module.function` joined by `>`. -/
def wrapperChainStr : List (String × String) → String
  | [] => ""
  | [(m, f)] => m ++ "." ++ f
  | (m, f) :: rest => m ++ "." ++ f ++ ">" ++ wrapperChainStr rest

/-- Nested resolution of a call at a given remaining depth budget: the
search applied to the call's own module, function and arguments. -/
def resolveChainAt (fuel : Nat) (c : PyVal) (sg : Option String) (nc : Option Int) :
    Option ParsedOp :=
  find_nested_stake_operation fuel (pyStrField c "call_module") (pyStrField c "call_function")
    (pyListField c "call_args") sg nc

/-- Entry point of the nested resolution as `parse_extrinsic` performs
it on a top-level call: depth 0 against the default bound 5, on the
call's module, function and arguments. -/
def resolveChainTop (c : PyVal) (sg : Option String) (nc : Option Int) : Option ParsedOp :=
  resolveChainAt 5 c sg nc

/-- Big-endian 32-byte encoding of a word, for concrete EVM payloads. -/
def beWord32 (n : Nat) : List Nat :=
  (List.range 32).map (fun i => n >>> (8 * (31 - i)) % 256)

/-- Concrete 68-byte EVM payload: `stake` selector, first word 1000
(too large for a subnet id), second word 5. -/
def evmPayloadSwapped : List Nat := [0x69, 0x4e, 0x80, 0xc3] ++ beWord32 1000 ++ beWord32 5

/-- Key projection of a merged display row, for stating uniqueness. -/
def mergedKeyOf (e : MergedTx) : Option Nat × String × String × String × Option NetuidRef :=
  (e.extrinsic_idx, e.ttype, e.method, e.address, e.netuid)

/-- Group of raw candidates a display key collects: the non-skipped
transactions with that key. -/
def keyGroup (txs : List MTx)
    (k : Option Nat × String × String × String × Option NetuidRef) : List MTx :=
  txs.filter (fun tx => !displaySkip tx && displayMergeKey tx == k)

/-- Last System `ExtrinsicSuccess`/`ExtrinsicFailed` event id sharing an
extrinsic index, the quantity the success recomputation actually
reports. -/
def lastStatus (events : List ChainEvent) (idx : Option Nat) : Option String :=
  events.foldl
    (fun acc e =>
      if e.extrinsic_idx = idx ∧ e.module_id = "System" ∧
          (e.event_id = "ExtrinsicSuccess" ∨ e.event_id = "ExtrinsicFailed")
      then some e.event_id else acc)
    none

/-- Same-subnet swap call: `swap_stake` from subnet 3 to subnet 3. -/
def swapSameCall : PyVal :=
  mkStakeCall "swap_stake" [argD "origin_netuid" (.vint 3), argD "destination_netuid" (.vint 3)]

/-- Same-subnet move call: `move_stake` from subnet 3 to subnet 3. -/
def moveSameCall : PyVal :=
  mkStakeCall "move_stake" [argD "origin_netuid" (.vint 3), argD "destination_netuid" (.vint 3)]

/-- Plain `add_stake` call on subnet 9. -/
def addStakeCall : PyVal :=
  mkStakeCall "add_stake" [argD "netuid" (.vint 9), argD "amount_staked" (.vint 4000000000)]

/-- Decoded extrinsic holding the same-subnet swap call. -/
def extSwapSame : PyVal := .vdict [("call", swapSameCall)]

/-- Decoded extrinsic holding the same-subnet move call. -/
def extMoveSame : PyVal := .vdict [("call", moveSameCall)]

/-- Decoded extrinsic holding the `add_stake` call. -/
def extAddStake : PyVal := .vdict [("call", addStakeCall)]

/-- StakeAdded event of extrinsic 0 paying 1.5 TAO to hotkey `hk`. -/
def evStakeAdded : ChainEvent :=
  { module_id := "SubtensorModule", event_id := "StakeAdded",
    attributes := .vlist [.vstr "hk", .vstr "ck", .vint 1500000000],
    extrinsic_idx := some 0 }

/-- System ExtrinsicSuccess event of extrinsic 0. -/
def evExSuccess : ChainEvent :=
  { module_id := "System", event_id := "ExtrinsicSuccess",
    attributes := .vlist [], extrinsic_idx := some 0 }

/-- System ExtrinsicFailed event of extrinsic 0. -/
def evExFailed : ChainEvent :=
  { module_id := "System", event_id := "ExtrinsicFailed",
    attributes := .vlist [], extrinsic_idx := some 0 }

/-- Classification oracle recognising the single fingerprint `f` as a
pending `add_stake`, for the tracker scenarios. -/
def classifierF : String → Option ParsedOp := fun s =>
  if s = "f" then
    some { ptype := "direct", wrapper := none, module := "SubtensorModule",
           function := "add_stake", signer := none,
           netuid := some (.single 1), amount := none, nonce := none }
  else none

/-- Cycle t0: no new block, fingerprint `f` pending. -/
def cycleSeen : CycleInput := { newBlockHashes := none, pending := ["f"], now := 0 }

/-- Cycle t1: `f` mined into the newly observed block while the node
still lists it as pending. -/
def cycleMinedStillPending : CycleInput :=
  { newBlockHashes := some ["f"], pending := ["f"], now := 1 }

/-- Cycle t1 variant: `f` mined into the newly observed block and gone
from the node's pending list. -/
def cycleMinedAbsent : CycleInput :=
  { newBlockHashes := some ["f"], pending := [], now := 1 }

/-- Raw block candidate: extrinsic 5, STAKE, `add_stake`, signer `S`,
subnet 3, amount 1.5, successful. -/
def mtxA : MTx :=
  { extrinsic_idx := some 5, ttype := "STAKE", method := "add_stake",
    address := "S", amount := 3 / 2, netuid := some (.single 3), success := true }

/-- Second raw candidate sharing the key of `mtxA`, amount 2.5. -/
def mtxB : MTx := { mtxA with amount := 5 / 2 }

/-- Transaction that `parse_block_stake_transactions` produces for the
`add_stake` extrinsic with a closing ExtrinsicSuccess event. -/
def mtxExpected : MTx :=
  { extrinsic_idx := some 0, ttype := "STAKE", method := "add_stake", address := "hk",
    amount := raoToTao 1500000000, netuid := some (.single 9), success := true }

/-- Invariant of the last-block merge fold of `display_screen`: every
row is indexed by its own key, keys are unique, a key is present exactly
when its group of processed candidates is nonempty, and a present key's
row carries the running amount sum, success conjunction and member
count of that group. -/
def MergeInv (processed : List MTx)
    (acc : List ((Option Nat × String × String × String × Option NetuidRef) × MergedTx)) :
    Prop :=
  (∀ p ∈ acc, mergedKeyOf p.2 = p.1) ∧
  (acc.map Prod.fst).Nodup ∧
  (∀ k, acc.lookup k = none ↔ keyGroup processed k = []) ∧
  (∀ k e, acc.lookup k = some e →
    e.amount = ((keyGroup processed k).map MTx.amount).sum ∧
    e.success = (keyGroup processed k).all MTx.success ∧
    e.count = (keyGroup processed k).length)

/-! ### Helper lemmas -/

theorem orElse_eq_some {α : Type} {a b : Option α} {q : α}
    (h : (a <|> b) = some q) : a = some q ∨ b = some q := by
  cases a with
  | none => right; simpa using h
  | some x => left; simpa using h

theorem exists_of_findSomeE {α β : Type} {f : α → Except Unit (Option β)} {l : List α} {b : β}
    (h : findSomeE f l = Except.ok (some b)) : ∃ a ∈ l, f a = Except.ok (some b) := by
  induction l with
  | nil => simp [findSomeE] at h
  | cons x rest ih =>
    simp only [findSomeE] at h
    cases hx : f x with
    | error e => rw [hx] at h; simp [Bind.bind, Except.bind] at h
    | ok v =>
      rw [hx] at h
      cases v with
      | none =>
        simp [Bind.bind, Except.bind] at h
        obtain ⟨a, ha, hfa⟩ := ih h
        exact ⟨a, List.mem_cons_of_mem _ ha, hfa⟩
      | some y =>
        simp [Bind.bind, Except.bind] at h
        exact ⟨x, List.mem_cons_self x rest, by rw [hx, h]⟩

/-- Positivity of the RAO-to-TAO conversion. -/
theorem raoToTao_pos {v : Int} (h : 0 < v) : 0 < raoToTao v := by
  unfold raoToTao
  apply div_pos
  · exact_mod_cast h
  · norm_num

/-! ### C4 -/

/-- C4: `_decode_evm_transaction_data` on fewer than 4 input bytes
yields `None`; on a 4-byte selector plus two 32-byte words where the
first word is at least 256 (hence positive, not a subnet id) and the
second word is a valid subnet id below 256, it returns the swapped
interpretation — second word as the subnet id and first word as the RAO
amount; and when neither word is a valid subnet id it yields `None`. -/
theorem c4_evm_decoder :
    (∀ (input : List Nat) (nonce : PyVal),
      input.length < 4 → decodeEvmInput input nonce = none) ∧
    (∀ (input : List Nat) (nonce : PyVal),
      input.length = 68 →
      256 ≤ fromBytesBE ((input.drop 4).take 32) →
      fromBytesBE (((input.drop 4).drop 32).take 32) < 256 →
      decodeEvmInput input nonce = some
        { function :=
            if fromBytesBE (input.take 4) = 0x694e80c3 then "stake"
            else if fromBytesBE (input.take 4) = 0x2c5211c6 then "remove_stake"
            else "EVM_stake_op",
          amount := raoToTao (fromBytesBE ((input.drop 4).take 32) : Int),
          netuid := (fromBytesBE (((input.drop 4).drop 32).take 32) : Int),
          selector := fromBytesBE (input.take 4),
          nonce := evmNonceOf nonce }) ∧
    (∀ (input : List Nat) (nonce : PyVal),
      input.length = 68 →
      256 ≤ fromBytesBE ((input.drop 4).take 32) →
      256 ≤ fromBytesBE (((input.drop 4).drop 32).take 32) →
      decodeEvmInput input nonce = none) := by
  refine ⟨?_, ?_, ?_⟩
  · intro input nonce h
    simp [decodeEvmInput, h]
  · intro input nonce hlen h1 h2
    have h4 : ¬ input.length < 4 := by omega
    have h68 : input.length ≥ 68 := by omega
    rw [List.drop_drop] at h2
    norm_num at h2
    have h1' : ¬ fromBytesBE ((input.drop 4).take 32) < 256 := by omega
    have hpos : 0 < fromBytesBE ((input.drop 4).take 32) := by omega
    simp only [decodeEvmInput, h4, if_false, ge_iff_le, h68, if_true, List.drop_drop]
    norm_num [h1', h2, hpos]
    omega
  · intro input nonce hlen h1 h2
    have h4 : ¬ input.length < 4 := by omega
    have h68 : input.length ≥ 68 := by omega
    rw [List.drop_drop] at h2
    norm_num at h2
    have h1' : ¬ fromBytesBE ((input.drop 4).take 32) < 256 := by omega
    have h2' : ¬ fromBytesBE ((input.drop 36).take 32) < 256 := by omega
    simp only [decodeEvmInput, h4, if_false, ge_iff_le, h68, if_true, List.drop_drop]
    norm_num [h1', h2']

/-- C4 witness: a concrete 68-byte payload with first word 1000 and
second word 5 decodes to subnet 5 with amount 1000 RAO. -/
theorem c4_evm_decoder_witness :
    decodeEvmInput evmPayloadSwapped .vnone = some
      { function := "stake", amount := raoToTao 1000, netuid := 5,
        selector := 0x694e80c3, nonce := none } := by
  have h := c4_evm_decoder.2.1 evmPayloadSwapped .vnone
    (by decide) (by decide) (by decide)
  rw [h]
  have e1 : fromBytesBE ((evmPayloadSwapped.drop 4).take 32) = 1000 := by decide
  have e2 : fromBytesBE (((evmPayloadSwapped.drop 4).drop 32).take 32) = 5 := by decide
  have e3 : fromBytesBE (evmPayloadSwapped.take 4) = 0x694e80c3 := by decide
  rw [e1, e2, e3]
  norm_num [evmNonceOf]

/-! ### C10 -/

/-- C10: the hotkey registration lookup only probes subnets 0..63, so it
returns a strictly ascending sublist of `[0, ..., 63]`; membership is
exactly "well-formed hotkey, subnet below 64, registered"; and a hotkey
registered on no subnet below 64 — in particular one registered only on
subnets 64..255 — yields the empty list, which the classifier fallback
turns into the `'Unknown'` marker. -/
theorem c10_hotkey_lookup (registered : Nat → Bool) (hotkey : String) :
    List.Sorted (· < ·) (get_netuids_for_hotkey registered hotkey) ∧
    (∀ n ∈ get_netuids_for_hotkey registered hotkey, n < 64) ∧
    (∀ n, n ∈ get_netuids_for_hotkey registered hotkey ↔
      (¬ (hotkey = "" ∨ hotkey.length < 10) ∧ n < 64 ∧ registered n = true)) ∧
    ((∀ n, n < 64 → registered n = false) →
      get_netuids_for_hotkey registered hotkey = [] ∧
      hotkeyFallbackNetuid (get_netuids_for_hotkey registered hotkey) = .unk) := by
  by_cases hg : hotkey = "" ∨ hotkey.length < 10
  · refine ⟨?_, ?_, ?_, ?_⟩
    · simp [get_netuids_for_hotkey, hg]
    · simp [get_netuids_for_hotkey, hg]
    · intro n
      simp [get_netuids_for_hotkey, hg]
    · intro _
      constructor
      · simp [get_netuids_for_hotkey, hg]
      · simp [get_netuids_for_hotkey, hg, hotkeyFallbackNetuid]
  · have hunf : get_netuids_for_hotkey registered hotkey = (List.range 64).filter registered := by
      simp [get_netuids_for_hotkey, hg]
    refine ⟨?_, ?_, ?_, ?_⟩
    · rw [hunf]
      exact List.Pairwise.sublist (List.filter_sublist _) (List.pairwise_lt_range 64)
    · intro n hn
      rw [hunf] at hn
      have := List.mem_range.mp (List.mem_of_mem_filter hn)
      exact this
    · intro n
      rw [hunf]
      simp only [List.mem_filter, List.mem_range]
      constructor
      · rintro ⟨h1, h2⟩
        exact ⟨hg, h1, h2⟩
      · rintro ⟨_, h1, h2⟩
        exact ⟨h1, h2⟩
    · intro hnone
      have : (List.range 64).filter registered = [] := by
        apply List.filter_eq_nil_iff.mpr
        intro n hn
        rw [hnone n (List.mem_range.mp hn)]
        simp
      rw [hunf, this]
      exact ⟨rfl, by simp [hotkeyFallbackNetuid]⟩

/-- C10 witness: a hotkey registered only on subnet 70 yields the empty
list and the fallback marks it `'Unknown'`. -/
theorem c10_hotkey_lookup_witness :
    get_netuids_for_hotkey (fun n => n == 70) "0123456789" = [] ∧
    hotkeyFallbackNetuid (get_netuids_for_hotkey (fun n => n == 70) "0123456789") = .unk :=
  (c10_hotkey_lookup (fun n => n == 70) "0123456789").2.2.2 (by decide)

/-! ### C9 -/

theorem amountAt_pos {args : List PyVal} {idx : Nat} {q : ℚ}
    (h : amountAt args idx = some q) : 0 < q := by
  unfold amountAt at h
  split at h
  · split at h
    · split at h
      · split at h
        · rename_i v _ hv _
          obtain rfl : raoToTao v = q := by simpa using h
          exact raoToTao_pos hv
        · exact absurd h (by simp)
      · exact absurd h (by simp)
    · exact absurd h (by simp)
  · exact absurd h (by simp)

/-- C9: a heuristic amount extraction never fabricates a value — every
extracted amount is strictly positive, so `None` (rendered `Unknown`) is
the only way a failed extraction surfaces and a genuine zero amount can
never be confused with it; the display cell is `Unknown` exactly for the
missing-or-zero merged amount, and a missing subnet renders `Unknown`
while a present one never does. -/
theorem c9_unknown_vs_zero :
    (∀ (args : List PyVal) (cf : Option String) (q : ℚ),
        extract_amount args cf = some q → 0 < q) ∧
    (∀ q : ℚ, amountCellOf q = AmountCell.unknownAmount ↔ q = 0) ∧
    netuidCellOf none = NetuidCell.unknownNetuid ∧
    (∀ r, netuidCellOf (some r) ≠ NetuidCell.unknownNetuid) := by
  refine ⟨?_, ?_, rfl, ?_⟩
  · intro args cf q h
    unfold extract_amount at h
    split at h
    · exact absurd h (by simp)
    · rcases orElse_eq_some h with h1 | h2
      · obtain ⟨a, _, ha⟩ := List.exists_of_findSome?_eq_some h1
        simp only [amountNamePass] at ha
        split at ha
        · exact absurd ha (by simp)
        · split at ha
          · exact absurd ha (by simp)
          · split at ha
            · split at ha
              · split at ha
                · rename_i v _ hv
                  obtain rfl : raoToTao v = q := by simpa using ha
                  exact raoToTao_pos hv
                · exact absurd ha (by simp)
              · exact absurd ha (by simp)
            · exact absurd ha (by simp)
      · dsimp only at h2
        split at h2
        · rcases orElse_eq_some h2 with h3 | h4
          · exact amountAt_pos h3
          · rcases orElse_eq_some h4 with h5 | h6
            · exact amountAt_pos h5
            · exact amountAt_pos h6
        · obtain ⟨a, _, ha⟩ := List.exists_of_findSome?_eq_some h2
          split at ha
          · exact absurd ha (by simp)
          · split at ha
            · split at ha
              · split at ha
                · rename_i v _ hv _
                  obtain rfl : raoToTao v = q := by simpa using ha
                  exact raoToTao_pos hv
                · exact absurd ha (by simp)
              · exact absurd ha (by simp)
            · exact absurd ha (by simp)
  · intro q
    unfold amountCellOf
    split
    · simp_all
    · simp_all
  · intro r
    cases r <;> simp [netuidCellOf]

/-- C9 witness: a concrete named-amount extraction yields a strictly
positive amount. -/
theorem c9_unknown_vs_zero_witness :
    ∃ q : ℚ, extract_amount [argD "amount_staked" (.vint 2500000000)]
      (some "add_stake") = some q ∧ 0 < q :=
  ⟨raoToTao 2500000000, rfl,
    c9_unknown_vs_zero.1 [argD "amount_staked" (.vint 2500000000)] (some "add_stake") _ rfl⟩

/-! ### C8 -/

theorem regularNamed_single {args : List PyVal} {r : NetuidRef}
    (h : regularNamed args = some r) : ∃ n, r = .single n := by
  obtain ⟨a, _, ha⟩ := List.exists_of_findSome?_eq_some h
  dsimp only at ha
  split at ha
  · simp at ha
  · split at ha
    · split at ha
      · split at ha
        · exact ⟨_, ((Option.some.inj ha)).symm⟩
        · simp at ha
      · simp at ha
    · simp at ha

theorem regularPositional_single {args : List PyVal} {r : NetuidRef}
    (h : regularPositional args = some r) : ∃ n, r = .single n := by
  obtain ⟨a, _, ha⟩ := List.exists_of_findSome?_eq_some h
  split at ha
  · split at ha
    · exact ⟨_, ((Option.some.inj ha)).symm⟩
    · simp at ha
  · simp at ha

theorem extract_netuid_pair_cf {args : List PyVal} {cf : Option String} {a b : Int}
    (h : extract_netuid args cf = some (.pair a b)) : cfIsMoveSwapTransfer cf = true := by
  unfold extract_netuid at h
  split at h
  · simp at h
  · cases hcf : cfIsMoveSwapTransfer cf with
    | true => rfl
    | false =>
      exfalso
      rw [hcf] at h
      replace h : (regularNamed args <|> regularPositional args) =
          some (NetuidRef.pair a b) := h
      rcases orElse_eq_some h with h1 | h2
      · obtain ⟨n, hn⟩ := regularNamed_single h1
        simp at hn
      · obtain ⟨n, hn⟩ := regularPositional_single h2
        simp at hn

theorem namedNetuidProbe_single {arg : PyVal} {r : NetuidRef}
    (h : namedNetuidProbe arg = Except.ok (some r)) : ∃ n, r = .single n := by
  unfold namedNetuidProbe at h
  split at h
  · cases hint : pyIntE (pyGet arg "value") with
    | error e => rw [hint] at h; simp [Bind.bind, Except.bind] at h
    | ok n =>
      rw [hint] at h
      simp only [Bind.bind, Except.bind] at h
      exact ⟨n, (Option.some.inj (Except.ok.inj h)).symm⟩
  · simp at h

theorem extract_netuid_from_call_pair {call : PyVal} {f : String} {a b : Int}
    (h : extract_netuid_from_call call f = Except.ok (some (.pair a b))) :
    f ∈ move_swap_operations := by
  cases hf : move_swap_operations.contains f with
  | true => simpa using hf
  | false =>
    exfalso
    unfold extract_netuid_from_call at h
    rw [hf] at h
    replace h : (do
        let named ← findSomeE namedNetuidProbe (pyListField call "call_args")
        match named with
        | some r => Except.ok (some r)
        | none =>
          if f = "add_stake" ∨ f = "remove_stake" then Except.ok (some (NetuidRef.single 0))
          else (Except.ok none : Except Unit (Option NetuidRef))) =
        Except.ok (some (NetuidRef.pair a b)) := h
    cases hfind : findSomeE namedNetuidProbe (pyListField call "call_args") with
    | error e => rw [hfind] at h; exact absurd h (by simp [Bind.bind, Except.bind])
    | ok v =>
      rw [hfind] at h
      replace h : (match v with
        | some r => Except.ok (some r)
        | none =>
          if f = "add_stake" ∨ f = "remove_stake" then Except.ok (some (NetuidRef.single 0))
          else (Except.ok none : Except Unit (Option NetuidRef))) =
        Except.ok (some (NetuidRef.pair a b)) := h
      cases v with
      | some r =>
        obtain ⟨arg, _, harg⟩ := exists_of_findSomeE hfind
        obtain ⟨n, rfl⟩ := namedNetuidProbe_single harg
        simp at h
      | none =>
        replace h : (if f = "add_stake" ∨ f = "remove_stake" then
            Except.ok (some (NetuidRef.single 0))
            else (Except.ok none : Except Unit (Option NetuidRef))) =
            Except.ok (some (NetuidRef.pair a b)) := h
        split at h <;> simp at h

/-- Shape of every successful nested resolution: the produced record's
function is a stake operation and its netuid is the extraction over that
function's own arguments (the wrapper rewriting on the way out touches
only the wrapper path). -/
theorem find_nested_shape {fuel : Nat} {wm wf : String} {args : List PyVal}
    {sg : Option String} {nc : Option Int} {p : ParsedOp}
    (h : find_nested_stake_operation fuel wm wf args sg nc = some p) :
    ∃ nargs, is_stake_operation p.function = true ∧
      p.netuid = extract_netuid nargs (some p.function) := by
  induction fuel generalizing wm wf args p with
  | zero => simp [find_nested_stake_operation] at h
  | succ fuel ih =>
    unfold find_nested_stake_operation at h
    split at h
    · simp at h
    · obtain ⟨arg, _, harg⟩ := List.exists_of_findSome?_eq_some h
      unfold findNestedProbeArg at harg
      simp only [] at harg
      split at harg
      · simp at harg
      · split at harg
        · simp at harg
        · split at harg
          · simp at harg
          · obtain ⟨nc', _, hnc⟩ := List.exists_of_findSome?_eq_some harg
            unfold findNestedProbeCall at hnc
            simp only [] at hnc
            split at hnc
            · simp at hnc
            · split at hnc
              · rename_i hstake
                obtain rfl := Option.some.inj hnc
                exact ⟨pyListField nc' "call_args", hstake.2, rfl⟩
              · split at hnc
                · rename_i d hd
                  obtain rfl := Option.some.inj hnc
                  obtain ⟨nargs, h1, h2⟩ := ih hd
                  exact ⟨nargs, h1, h2⟩
                · simp at hnc

theorem evmBranch_netuid_single {args : List PyVal} {sg : Option String} {nc : Option Int}
    {p : ParsedOp} (h : evmBranch args sg nc = some p) :
    ∃ n, p.netuid = some (.single n) := by
  unfold evmBranch at h
  simp only [] at h
  split at h
  · simp at h
  · split at h
    · simp at h
    · obtain rfl := Option.some.inj h
      exact ⟨_, rfl⟩

/-- C8: a subnet reference is an (origin, destination) pair only for the
stake-movement family (`move_stake`, `swap_stake`, `transfer_stake` and
their `_limit` variants — the functions classified as MOVE/SWAP/TRANSFER):
the mempool extractor produces a pair only under its move/swap/transfer
guard, the block analyzer's call parser attaches a pair only to a method
path ending in a `move_swap_operations` member, and every pending
classification carrying a pair has a movement function; all other calls
receive a scalar, list, `'Unknown'` or absent reference. -/
theorem c8_pair_only_for_movement :
    (∀ (args : List PyVal) (cf : Option String) (a b : Int),
        extract_netuid args cf = some (.pair a b) → cfIsMoveSwapTransfer cf = true) ∧
    (∀ (call : PyVal) (a b : Int) (m : Option String) (nst : Bool),
        parse_nested_call call = Except.ok (some (.pair a b), m, nst) →
        ∃ g, g ∈ move_swap_operations ∧ (m = some g ∨ ∃ wf, m = some (wf ++ " > " ++ g))) ∧
    (∀ (data : PyVal) (p : ParsedOp), parse_extrinsic_decoded data = some p →
        ∀ a b, p.netuid = some (.pair a b) →
          p.function ≠ "" ∧ isMoveSwapTransferName p.function = true) := by
  refine ⟨?_, ?_, ?_⟩
  · intro args cf a b h
    exact extract_netuid_pair_cf h
  · intro call a b m nst h
    unfold parse_nested_call at h
    simp only [] at h
    split at h
    · cases hfind : findSomeE (parseNestedProbeArg (pyStrField call "call_function"))
          (pyListField call "call_args") with
      | error e =>
        rw [hfind] at h
        simp [Bind.bind, Except.bind] at h
      | ok v =>
        rw [hfind] at h
        simp only [Bind.bind, Except.bind] at h
        cases v with
        | none => simp at h
        | some r =>
          obtain rfl : r = (some (NetuidRef.pair a b), m, nst) := by simpa using h
          obtain ⟨arg, _, harg⟩ := exists_of_findSomeE hfind
          unfold parseNestedProbeArg at harg
          simp only [] at harg
          split at harg
          · simp at harg
          · split at harg
            · obtain ⟨nc', _, hnc⟩ := exists_of_findSomeE harg
              unfold parseNestedProbeCall at hnc
              simp only [] at hnc
              split at hnc
              · split at hnc
                · cases hx : extract_netuid_from_call nc' (pyStrField nc' "call_function") with
                  | error e => rw [hx] at hnc; simp [Bind.bind, Except.bind] at hnc
                  | ok nid =>
                    rw [hx] at hnc
                    simp only [Bind.bind, Except.bind] at hnc
                    have heq := Option.some.inj (Except.ok.inj hnc)
                    simp only [Prod.mk.injEq] at heq
                    obtain ⟨h1, h2, _⟩ := heq
                    subst h1
                    exact ⟨pyStrField nc' "call_function",
                      extract_netuid_from_call_pair hx,
                      Or.inr ⟨pyStrField call "call_function", h2.symm⟩⟩
                · simp at hnc
              · simp at hnc
            · simp at harg
    · split at h
      · cases hx : extract_netuid_from_call call (pyStrField call "call_function") with
        | error e => rw [hx] at h; simp [Bind.bind, Except.bind] at h
        | ok nid =>
          rw [hx] at h
          simp only [Bind.bind, Except.bind] at h
          obtain ⟨h1, h2, h3⟩ : nid = some (NetuidRef.pair a b) ∧
              (some (pyStrField call "call_function") : Option String) = m ∧ false = nst := by
            simpa using h
          subst h1
          exact ⟨pyStrField call "call_function",
            extract_netuid_from_call_pair hx, Or.inl h2.symm⟩
      · simp at h
  · intro data p h a b hp
    unfold parse_extrinsic_decoded at h
    simp only [] at h
    split at h
    · simp at h
    · split at h
      · rename_i r hr
        obtain rfl := Option.some.inj h
        split at hr
        · obtain ⟨n, hn⟩ := evmBranch_netuid_single hr
          rw [hn] at hp
          simp at hp
        · simp at hr
      · split at h
        · obtain rfl := Option.some.inj h
          dsimp only at hp
          have := extract_netuid_pair_cf hp
          simpa [cfIsMoveSwapTransfer] using this
        · obtain ⟨nargs, h1, h2⟩ := find_nested_shape h
          rw [h2] at hp
          have := extract_netuid_pair_cf hp
          simpa [cfIsMoveSwapTransfer] using this

/-- C8 witness: a concrete pair extraction forces the
move/swap/transfer guard to hold. -/
theorem c8_pair_only_for_movement_witness :
    cfIsMoveSwapTransfer (some "swap_stake") = true :=
  c8_pair_only_for_movement.1
    [argD "origin_netuid" (.vint 3), argD "destination_netuid" (.vint 7)]
    (some "swap_stake") 3 7 (by decide)

/-! ### C5 -/

theorem processMoveArg_origin (st : MoveScanState) (arg : PyVal) :
    (processMoveArg st arg).origin =
      match effOrigin arg with
      | some v => some v
      | none => st.origin := by
  by_cases h1 : isDict arg
  · cases h2 : extract_value_from_arg arg with
    | none => simp [processMoveArg, effOrigin, h1, h2]
    | some v =>
      by_cases h3 : 0 ≤ v ∧ v < 256
      · by_cases h4 : originNames.any (fun n => strHasSub (strLower (argNameStr arg)) n)
        · simp [processMoveArg, effOrigin, h1, h2, h3, h4]
        · by_cases h5 : destNames.any (fun n => strHasSub (strLower (argNameStr arg)) n)
          · simp [processMoveArg, effOrigin, h1, h2, h3, h4, h5]
          · by_cases h6 : strHasSub (strLower (argNameStr arg)) "netuid"
            · simp [processMoveArg, effOrigin, h1, h2, h3, h4, h5, h6]
            · simp [processMoveArg, effOrigin, h1, h2, h3, h4, h5, h6]
      · simp [processMoveArg, effOrigin, h1, h2, h3]
  · simp [processMoveArg, effOrigin, h1]

theorem processMoveArg_dest (st : MoveScanState) (arg : PyVal) :
    (processMoveArg st arg).dest =
      match effDest arg with
      | some v => some v
      | none => st.dest := by
  by_cases h1 : isDict arg
  · cases h2 : extract_value_from_arg arg with
    | none => simp [processMoveArg, effDest, h1, h2]
    | some v =>
      by_cases h3 : 0 ≤ v ∧ v < 256
      · by_cases h4 : originNames.any (fun n => strHasSub (strLower (argNameStr arg)) n)
        · simp [processMoveArg, effDest, h1, h2, h3, h4]
        · by_cases h5 : destNames.any (fun n => strHasSub (strLower (argNameStr arg)) n)
          · simp [processMoveArg, effDest, h1, h2, h3, h4, h5]
          · by_cases h6 : strHasSub (strLower (argNameStr arg)) "netuid"
            · simp [processMoveArg, effDest, h1, h2, h3, h4, h5, h6]
            · simp [processMoveArg, effDest, h1, h2, h3, h4, h5, h6]
      · simp [processMoveArg, effDest, h1, h2, h3]
  · simp [processMoveArg, effDest, h1]

theorem moveFold_origin (l : List PyVal) (st : MoveScanState) :
    (l.foldl processMoveArg st).origin = lastOrD (l.filterMap effOrigin) st.origin := by
  induction l generalizing st with
  | nil => rfl
  | cons a rest ih =>
    rw [List.foldl_cons, ih]
    cases h : effOrigin a with
    | none =>
      rw [List.filterMap_cons_none h]
      congr 1
      rw [processMoveArg_origin, h]
    | some v =>
      rw [List.filterMap_cons_some h]
      show lastOrD (rest.filterMap effOrigin) (processMoveArg st a).origin =
        lastOrD (rest.filterMap effOrigin) (some v)
      congr 1
      rw [processMoveArg_origin, h]

theorem moveFold_dest (l : List PyVal) (st : MoveScanState) :
    (l.foldl processMoveArg st).dest = lastOrD (l.filterMap effDest) st.dest := by
  induction l generalizing st with
  | nil => rfl
  | cons a rest ih =>
    rw [List.foldl_cons, ih]
    cases h : effDest a with
    | none =>
      rw [List.filterMap_cons_none h]
      congr 1
      rw [processMoveArg_dest, h]
    | some v =>
      rw [List.filterMap_cons_some h]
      show lastOrD (rest.filterMap effDest) (processMoveArg st a).dest =
        lastOrD (rest.filterMap effDest) (some v)
      congr 1
      rw [processMoveArg_dest, h]

theorem moveBranch_pair {m : List PyVal} {o d : Int}
    (ho : (m.foldl processMoveArg ⟨none, none, []⟩).origin = some o)
    (hd : (m.foldl processMoveArg ⟨none, none, []⟩).dest = some d) :
    moveBranch m = some (.pair o d) := by
  unfold moveBranch
  simp only [] at ho hd ⊢
  rw [ho, hd]

/-- C5: a move/swap/transfer call whose arguments contribute exactly one
origin-side named netuid `o` and exactly one destination-side named
netuid `d` (each a dict argument whose lowered name contains an
origin/destination key and whose value is a valid subnet id) extracts to
exactly the pair `(o, d)`, and the result is invariant under any
permutation of the argument declaration order. -/
theorem c5_named_pair_order_invariant (f : String) (l : List PyVal) (o d : Int)
    (hf : cfIsMoveSwapTransfer (some f) = true)
    (ho : l.filterMap effOrigin = [o])
    (hd : l.filterMap effDest = [d]) :
    extract_netuid l (some f) = some (.pair o d) ∧
    ∀ l', l.Perm l' → extract_netuid l' (some f) = some (.pair o d) := by
  have main : ∀ (m : List PyVal), m.filterMap effOrigin = [o] → m.filterMap effDest = [d] →
      extract_netuid m (some f) = some (.pair o d) := by
    intro m hmo hmd
    have hne : ¬ (m.isEmpty = true) := by
      cases m
      · simp at hmo
      · simp
    have horig : (m.foldl processMoveArg ⟨none, none, []⟩).origin = some o := by
      rw [moveFold_origin, hmo]; rfl
    have hdest : (m.foldl processMoveArg ⟨none, none, []⟩).dest = some d := by
      rw [moveFold_dest, hmd]; rfl
    have hmb := moveBranch_pair horig hdest
    simp [extract_netuid, hne, hf, hmb]
  refine ⟨main l ho hd, ?_⟩
  intro l' hperm
  apply main
  · have hp := hperm.filterMap effOrigin
    rw [ho] at hp
    exact List.perm_singleton.mp hp.symm
  · have hp := hperm.filterMap effDest
    rw [hd] at hp
    exact List.perm_singleton.mp hp.symm

/-- C5 witness: the named origin/destination pair (3, 7) is extracted in
both declaration orders. -/
theorem c5_named_pair_order_invariant_witness :
    extract_netuid [argD "origin_netuid" (.vint 3), argD "destination_netuid" (.vint 7)]
      (some "move_stake") = some (.pair 3 7) ∧
    extract_netuid [argD "destination_netuid" (.vint 7), argD "origin_netuid" (.vint 3)]
      (some "move_stake") = some (.pair 3 7) :=
  ⟨(c5_named_pair_order_invariant "move_stake"
      [argD "origin_netuid" (.vint 3), argD "destination_netuid" (.vint 7)] 3 7
      (by decide) (by decide) (by decide)).1,
   (c5_named_pair_order_invariant "move_stake"
      [argD "origin_netuid" (.vint 3), argD "destination_netuid" (.vint 7)] 3 7
      (by decide) (by decide) (by decide)).2
     [argD "destination_netuid" (.vint 7), argD "origin_netuid" (.vint 3)]
     (List.Perm.swap _ _ [])⟩

/-! ### C6 -/

theorem processMTxEvent_success {extrinsics : List PyVal} {events : List ChainEvent}
    {e : ChainEvent} {tx : MTx}
    (h : processMTxEvent extrinsics events e = Except.ok (some tx)) :
    tx.success = successFor events tx.extrinsic_idx := by
  unfold processMTxEvent at h
  split at h
  · simp at h
  · split at h
    · simp at h
    · split at h
      · rename_i attrs heq
        split at h
        · cases hint : pyIntE (attrs.getD 2 .vnone) with
          | error err => rw [hint] at h; simp [Bind.bind, Except.bind] at h
          | ok n =>
            rw [hint] at h
            simp only [Bind.bind, Except.bind] at h
            obtain rfl := Option.some.inj (Except.ok.inj h)
            rfl
        · simp at h
      · simp at h

theorem mtxLoop_success {extrinsics : List PyVal} {events : List ChainEvent}
    {rest : List ChainEvent} {txs : List MTx}
    (h : mtxLoop extrinsics events rest = Except.ok txs) :
    ∀ tx ∈ txs, tx.success = successFor events tx.extrinsic_idx := by
  induction rest generalizing txs with
  | nil =>
    obtain rfl : txs = [] := by simpa [mtxLoop] using h.symm
    simp
  | cons e rest ih =>
    unfold mtxLoop at h
    cases hr : processMTxEvent extrinsics events e with
    | error err => rw [hr] at h; simp [Bind.bind, Except.bind] at h
    | ok r =>
      rw [hr] at h
      cases hl : mtxLoop extrinsics events rest with
      | error err => rw [hl] at h; simp [Bind.bind, Except.bind] at h
      | ok txs' =>
        rw [hl] at h
        simp only [Bind.bind, Except.bind] at h
        cases r with
        | none =>
          obtain rfl : txs = txs' := by simpa using h.symm
          exact ih hl
        | some tx0 =>
          obtain rfl : txs = tx0 :: txs' := by simpa using h.symm
          intro tx htx
          rcases List.mem_cons.mp htx with rfl | htx
          · exact processMTxEvent_success hr
          · exact ih hl tx htx

theorem successFor_foldl (l : List ChainEvent) (idx : Option Nat) (b : Bool) (acc : Option String)
    (hb : b = (acc == some "ExtrinsicSuccess")) :
    l.foldl
      (fun success evt =>
        if evt.extrinsic_idx = idx ∧ evt.module_id = "System" then
          if evt.event_id = "ExtrinsicSuccess" then true
          else if evt.event_id = "ExtrinsicFailed" then false
          else success
        else success) b =
    ((l.foldl
      (fun acc e =>
        if e.extrinsic_idx = idx ∧ e.module_id = "System" ∧
            (e.event_id = "ExtrinsicSuccess" ∨ e.event_id = "ExtrinsicFailed")
        then some e.event_id else acc) acc) == some "ExtrinsicSuccess") := by
  induction l generalizing b acc with
  | nil => simpa using hb
  | cons e rest ih =>
    rw [List.foldl_cons, List.foldl_cons]
    apply ih
    by_cases h1 : e.extrinsic_idx = idx ∧ e.module_id = "System"
    · by_cases h2 : e.event_id = "ExtrinsicSuccess"
      · simp [h1, h2, h1.1, h1.2]
      · by_cases h3 : e.event_id = "ExtrinsicFailed"
        · have hcond : e.extrinsic_idx = idx ∧ e.module_id = "System" ∧
              (e.event_id = "ExtrinsicSuccess" ∨ e.event_id = "ExtrinsicFailed") :=
            ⟨h1.1, h1.2, Or.inr h3⟩
          simp [h1, h2, h3, hcond]
        · have hcond : ¬ (e.extrinsic_idx = idx ∧ e.module_id = "System" ∧
              (e.event_id = "ExtrinsicSuccess" ∨ e.event_id = "ExtrinsicFailed")) := by
            tauto
          simp [h1, h2, h3, hcond, hb]
    · have hcond : ¬ (e.extrinsic_idx = idx ∧ e.module_id = "System" ∧
          (e.event_id = "ExtrinsicSuccess" ∨ e.event_id = "ExtrinsicFailed")) := by
        tauto
      simp [h1, hcond, hb]

theorem successFor_eq_lastStatus (events : List ChainEvent) (idx : Option Nat) :
    successFor events idx = (lastStatus events idx == some "ExtrinsicSuccess") := by
  unfold successFor lastStatus
  exact successFor_foldl events idx false none rfl

/-- C6 counterexample: a block whose events hold a single StakeAdded
event at extrinsic 0 and no System events at all produces a transaction
with `success = false`, even though no ExtrinsicFailed system event
shares extrinsic index 0 — refuting "success is true iff no
ExtrinsicFailed system event shares the extrinsic index" (the code
requires a closing ExtrinsicSuccess event to report success). -/
theorem c6_success_flag_counterexample :
    (parse_block_stake_transactions [extAddStake] [evStakeAdded]).map
        (fun t => (t.success, t.extrinsic_idx)) = [(false, some 0)] ∧
    ([evStakeAdded].all (fun e =>
        !(e.module_id == "System" && e.event_id == "ExtrinsicFailed"))) = true :=
  ⟨rfl, rfl⟩

/-- C6 (amended): the success flag of every transaction produced by
`parse_block_stake_transactions` is true exactly when the last System
`ExtrinsicSuccess`/`ExtrinsicFailed` event sharing the transaction's
extrinsic index exists and is `ExtrinsicSuccess` (the fold starts from
`False` and the last matching status event wins). -/
theorem c6_success_flag_amended (extrinsics : List PyVal) (events : List ChainEvent) :
    ∀ tx ∈ parse_block_stake_transactions extrinsics events,
      (tx.success = true ↔ lastStatus events tx.extrinsic_idx = some "ExtrinsicSuccess") := by
  intro tx htx
  unfold parse_block_stake_transactions at htx
  cases hl : mtxLoop extrinsics events events with
  | error e => rw [hl] at htx; simp at htx
  | ok txs =>
    rw [hl] at htx
    have hs := mtxLoop_success hl tx htx
    rw [successFor_eq_lastStatus] at hs
    constructor
    · intro h
      rw [h] at hs
      exact eq_of_beq hs.symm
    · intro h
      rw [hs, h]
      simp

/-- C6 witness: with a closing ExtrinsicSuccess event the produced
transaction's success flag is true and the last status event is
`ExtrinsicSuccess`. -/
theorem c6_success_flag_amended_witness :
    ∃ tx, tx ∈ parse_block_stake_transactions [extAddStake] [evStakeAdded, evExSuccess] ∧
      (tx.success = true ↔
        lastStatus [evStakeAdded, evExSuccess] tx.extrinsic_idx = some "ExtrinsicSuccess") := by
  have hout : parse_block_stake_transactions [extAddStake] [evStakeAdded, evExSuccess] =
      [mtxExpected] := rfl
  have hmem : mtxExpected ∈
      parse_block_stake_transactions [extAddStake] [evStakeAdded, evExSuccess] := by
    rw [hout]
    exact List.mem_singleton.mpr rfl
  exact ⟨_, hmem, c6_success_flag_amended [extAddStake] [evStakeAdded, evExSuccess] _ hmem⟩

/-! ### C7 -/

/-- C7 counterexample: fingerprint `f` enters the tracked pending view
at cycle t0; at cycle t1 it appears in the newly observed finalized
block's extrinsic set while the node still lists it as pending.  The
monitor deletes it and re-adds it in the same cycle, so it is present in
the pending view after t1 — refuting "removed exactly once and never
reappears in the pending view after t1". -/
theorem c7_tracker_counterexample :
    ((tracker_step classifierF (tracker_step classifierF [] cycleSeen)
        cycleMinedStillPending).map Prod.fst) = ["f"] := rfl

theorem tracker_step_absent (classify : String → Option ParsedOp)
    (st : List (String × TrackedEntry)) (inp : CycleInput)
    {f : String} (hf : ¬ f ∈ inp.pending) :
    ¬ f ∈ (tracker_step classify st inp).map Prod.fst := by
  intro hmem
  unfold tracker_step at hmem
  obtain ⟨p, hp, hpf⟩ := List.mem_map.mp hmem
  have hc := List.of_mem_filter hp
  rw [hpf] at hc
  exact hf (by simpa using hc)

/-- C7 (amended): the re-addition in the counterexample is driven
entirely by the node's pending list, so the claim holds under the
proviso that the list stops presenting the fingerprint: after any
nonempty run of poll cycles none of whose pending lists contains the
fingerprint — in particular from the inclusion cycle t1 on, once the
node stops reporting the mined extrinsic as pending — the fingerprint
is absent from the tracked pending view and never reappears. -/
theorem c7_tracker_amended (classify : String → Option ParsedOp)
    (st : List (String × TrackedEntry)) (f : String) (inps : List CycleInput)
    (hne : inps ≠ []) (h : ∀ c ∈ inps, ¬ f ∈ c.pending) :
    ¬ f ∈ (inps.foldl (tracker_step classify) st).map Prod.fst := by
  induction inps generalizing st with
  | nil => exact absurd rfl hne
  | cons c rest ih =>
    rw [List.foldl_cons]
    cases rest with
    | nil =>
      rw [List.foldl_nil]
      exact tracker_step_absent classify st c (h c (List.mem_cons_self c []))
    | cons c2 rest2 =>
      exact ih (tracker_step classify st c) (List.cons_ne_nil c2 rest2)
        (fun x hx => h x (List.mem_cons_of_mem _ hx))

/-- C7 witness: with the fingerprint mined and absent from the pending
list at t1, it is gone from the tracked view after t1. -/
theorem c7_tracker_amended_witness :
    ¬ "f" ∈ (([cycleMinedAbsent].foldl (tracker_step classifierF)
        (tracker_step classifierF [] cycleSeen)).map Prod.fst) :=
  c7_tracker_amended classifierF (tracker_step classifierF [] cycleSeen) "f"
    [cycleMinedAbsent] (List.cons_ne_nil _ _)
    (by intro c hc; rw [List.mem_singleton.mp hc]; simp [cycleMinedAbsent])

/-! ### C2 -/

theorem wrapper_module_ne_subtensor {m : String}
    (h : wrapper_modules_mempool.contains m = true) : ¬ (m = "SubtensorModule") := by
  have hm : m ∈ wrapper_modules_mempool := by simpa using h
  simp only [wrapper_modules_mempool, List.mem_cons, List.not_mem_nil, or_false] at hm
  rcases hm with rfl | rfl | rfl | rfl | rfl
  · decide
  · decide
  · decide
  · decide
  · decide

theorem wrapCall_fields (mf : String × String) (inner : PyVal) :
    pyStrField (wrapCallWith mf inner) "call_module" = mf.1 ∧
    pyStrField (wrapCallWith mf inner) "call_function" = mf.2 ∧
    pyListField (wrapCallWith mf inner) "call_args" = [argD "calls" (.vlist [inner])] :=
  ⟨rfl, rfl, rfl⟩

theorem chainWrap_isDict (ws : List (String × String)) (f : String) (args : List PyVal) :
    isDict (chainWrap ws (mkStakeCall f args)) = true := by
  cases ws with
  | nil => rfl
  | cons w rest => rfl

/-- Evaluation of one wrapper level of the nested search: with a
recognised wrapper module and a single dict nested call under a `calls`
argument, the search either resolves the nested call directly (when it
is a staking call) or recurses with one budget level less. -/
theorem find_nested_wrap_step (fuel : Nat) (m0 f0 : String) (inner : PyVal)
    (sg : Option String) (nc : Option Int)
    (hw : wrapper_modules_mempool.contains m0 = true) (hd : isDict inner = true) :
    find_nested_stake_operation (fuel + 1) m0 f0 [argD "calls" (.vlist [inner])] sg nc =
      (if pyStrField inner "call_module" = "SubtensorModule" ∧
          is_stake_operation (pyStrField inner "call_function") = true then
        some { ptype := "nested", wrapper := some (m0 ++ "." ++ f0),
               module := pyStrField inner "call_module",
               function := pyStrField inner "call_function", signer := sg,
               netuid := extract_netuid (pyListField inner "call_args")
                 (some (pyStrField inner "call_function")),
               amount := extract_amount (pyListField inner "call_args")
                 (some (pyStrField inner "call_function")), nonce := nc }
      else
        match find_nested_stake_operation fuel (pyStrField inner "call_module")
            (pyStrField inner "call_function") (pyListField inner "call_args") sg nc with
        | some deeper => some { deeper with wrapper :=
            match deeper.wrapper with
            | some w => some (m0 ++ "." ++ f0 ++ ">" ++ w)
            | none => some (m0 ++ "." ++ f0) }
        | none => none) := by
  conv_lhs => unfold find_nested_stake_operation
  rw [hw, if_neg (by decide : ¬ ¬ (true = true))]
  rw [List.findSome?_cons]
  unfold findNestedProbeArg
  rw [show isDict (argD "calls" (.vlist [inner])) = true from rfl,
      if_neg (by decide : ¬ ¬ (true = true))]
  rw [show strLower (argNameStr (argD "calls" (.vlist [inner]))) = "calls" from rfl]
  simp only []
  rw [show (nestedArgKeys.contains "calls") = true from by decide,
      if_neg (by decide : ¬ ¬ (true = true))]
  rw [show pyGet (argD "calls" (.vlist [inner])) "value" = .vlist [inner] from rfl]
  rw [show isNoneV (.vlist [inner]) = false from rfl,
      if_neg (by decide : ¬ (false = true))]
  rw [show listifyCalls (.vlist [inner]) = [inner] from rfl]
  rw [List.findSome?_cons]
  unfold findNestedProbeCall
  rw [hd, if_neg (by decide : ¬ ¬ (true = true))]
  simp only []
  by_cases hc : pyStrField inner "call_module" = "SubtensorModule" ∧
      is_stake_operation (pyStrField inner "call_function") = true
  · rw [if_pos hc]
  · rw [if_neg hc]
    cases hnext : find_nested_stake_operation fuel (pyStrField inner "call_module")
        (pyStrField inner "call_function") (pyListField inner "call_args") sg nc with
    | some deeper => rfl
    | none => rfl

/-- Resolution of a wrapper chain within the depth budget: every
wrapper's `module.function` is prepended, the innermost staking call's
classification is returned. -/
theorem find_nested_chain_ok (ws : List (String × String)) (fuel : Nat) (f : String)
    (args : List PyVal) (sg : Option String) (nc : Option Int)
    (hw : ∀ p ∈ ws, wrapper_modules_mempool.contains p.1 = true)
    (hf : is_stake_operation f = true) (hne : ws ≠ []) (hlen : ws.length ≤ fuel) :
    resolveChainAt fuel (chainWrap ws (mkStakeCall f args)) sg nc = some
      { ptype := "nested", wrapper := some (wrapperChainStr ws),
        module := "SubtensorModule", function := f, signer := sg,
        netuid := extract_netuid args (some f),
        amount := extract_amount args (some f), nonce := nc } := by
  induction ws generalizing fuel with
  | nil => exact absurd rfl hne
  | cons w rest ih =>
    obtain ⟨m0, f0⟩ := w
    cases fuel with
    | zero => simp at hlen
    | succ fuel =>
      have hw0 : wrapper_modules_mempool.contains m0 = true :=
        hw (m0, f0) (List.mem_cons_self _ _)
      have hstep := find_nested_wrap_step fuel m0 f0 (chainWrap rest (mkStakeCall f args))
        sg nc hw0 (chainWrap_isDict rest f args)
      show find_nested_stake_operation (fuel + 1) m0 f0
        [argD "calls" (.vlist [chainWrap rest (mkStakeCall f args)])] sg nc = _
      rw [hstep]
      cases rest with
      | nil =>
        rw [if_pos ⟨rfl, hf⟩]
        rfl
      | cons w2 rest2 =>
        obtain ⟨m1, f1⟩ := w2
        have hw1 : wrapper_modules_mempool.contains m1 = true :=
          hw (m1, f1) (List.mem_cons_of_mem _ (List.mem_cons_self _ _))
        rw [if_neg (by
          intro hc
          exact wrapper_module_ne_subtensor hw1 hc.1)]
        have hrec := ih fuel (fun p hp => hw p (List.mem_cons_of_mem _ hp))
          (List.cons_ne_nil _ _) (by simpa using Nat.le_of_succ_le_succ hlen)
        rw [show find_nested_stake_operation fuel
            (pyStrField (chainWrap ((m1, f1) :: rest2) (mkStakeCall f args)) "call_module")
            (pyStrField (chainWrap ((m1, f1) :: rest2) (mkStakeCall f args)) "call_function")
            (pyListField (chainWrap ((m1, f1) :: rest2) (mkStakeCall f args)) "call_args")
            sg nc =
          resolveChainAt fuel (chainWrap ((m1, f1) :: rest2) (mkStakeCall f args)) sg nc
          from rfl]
        rw [hrec]
        rfl

/-- A chain one level deeper than the remaining budget yields no
resolution. -/
theorem find_nested_chain_too_deep (ws : List (String × String)) (fuel : Nat) (f : String)
    (args : List PyVal) (sg : Option String) (nc : Option Int)
    (hw : ∀ p ∈ ws, wrapper_modules_mempool.contains p.1 = true)
    (hlen : fuel < ws.length) :
    resolveChainAt fuel (chainWrap ws (mkStakeCall f args)) sg nc = none := by
  induction ws generalizing fuel with
  | nil => simp at hlen
  | cons w rest ih =>
    obtain ⟨m0, f0⟩ := w
    cases fuel with
    | zero =>
      cases rest with
      | nil => rfl
      | cons w2 rest2 => rfl
    | succ fuel =>
      have hw0 : wrapper_modules_mempool.contains m0 = true :=
        hw (m0, f0) (List.mem_cons_self _ _)
      have hstep := find_nested_wrap_step fuel m0 f0 (chainWrap rest (mkStakeCall f args))
        sg nc hw0 (chainWrap_isDict rest f args)
      show find_nested_stake_operation (fuel + 1) m0 f0
        [argD "calls" (.vlist [chainWrap rest (mkStakeCall f args)])] sg nc = _
      rw [hstep]
      cases rest with
      | nil => simp at hlen
      | cons w2 rest2 =>
        obtain ⟨m1, f1⟩ := w2
        have hw1 : wrapper_modules_mempool.contains m1 = true :=
          hw (m1, f1) (List.mem_cons_of_mem _ (List.mem_cons_self _ _))
        rw [if_neg (by
          intro hc
          exact wrapper_module_ne_subtensor hw1 hc.1)]
        have hrec := ih fuel (fun p hp => hw p (List.mem_cons_of_mem _ hp))
          (by simpa using Nat.lt_of_succ_lt_succ hlen)
        rw [show find_nested_stake_operation fuel
            (pyStrField (chainWrap ((m1, f1) :: rest2) (mkStakeCall f args)) "call_module")
            (pyStrField (chainWrap ((m1, f1) :: rest2) (mkStakeCall f args)) "call_function")
            (pyListField (chainWrap ((m1, f1) :: rest2) (mkStakeCall f args)) "call_args")
            sg nc =
          resolveChainAt fuel (chainWrap ((m1, f1) :: rest2) (mkStakeCall f args)) sg nc
          from rfl]
        rw [hrec]

/-- C2: for a staking call nested under a chain of recognised wrapper
calls, the resolver (entered as `parse_extrinsic` enters it, depth 0
against the default bound 5) finds the innermost staking call whenever
the chain is at most 5 wrappers deep, returning its classification with
every wrapper's `module.function` name prepended in order; a chain
deeper than the bound yields no resolution. -/
theorem c2_nested_resolution (ws : List (String × String)) (f : String) (args : List PyVal)
    (sg : Option String) (nc : Option Int)
    (hw : ∀ p ∈ ws, wrapper_modules_mempool.contains p.1 = true)
    (hf : is_stake_operation f = true) (hne : ws ≠ []) :
    (ws.length ≤ 5 →
      resolveChainTop (chainWrap ws (mkStakeCall f args)) sg nc = some
        { ptype := "nested", wrapper := some (wrapperChainStr ws),
          module := "SubtensorModule", function := f, signer := sg,
          netuid := extract_netuid args (some f),
          amount := extract_amount args (some f), nonce := nc }) ∧
    (5 < ws.length →
      resolveChainTop (chainWrap ws (mkStakeCall f args)) sg nc = none) := by
  constructor
  · intro hlen
    exact find_nested_chain_ok ws 5 f args sg nc hw hf hne hlen
  · intro hlen
    exact find_nested_chain_too_deep ws 5 f args sg nc hw hlen

/-- C2 witness: a two-wrapper chain resolves with the full unwrap path
`Utility.batch>Proxy.proxy`, and a six-wrapper chain resolves to
nothing. -/
theorem c2_nested_resolution_witness :
    resolveChainTop (chainWrap [("Utility", "batch"), ("Proxy", "proxy")]
        (mkStakeCall "add_stake" [argD "netuid" (.vint 9)])) (some "S") none = some
      { ptype := "nested", wrapper := some "Utility.batch>Proxy.proxy",
        module := "SubtensorModule", function := "add_stake", signer := some "S",
        netuid := extract_netuid [argD "netuid" (.vint 9)] (some "add_stake"),
        amount := extract_amount [argD "netuid" (.vint 9)] (some "add_stake"),
        nonce := none } ∧
    resolveChainTop (chainWrap [("Utility", "batch"), ("Proxy", "proxy"),
        ("Multisig", "as_multi"), ("Sudo", "sudo"), ("Utility", "batch_all"),
        ("Proxy", "proxy")] (mkStakeCall "add_stake" [])) none none = none :=
  ⟨(c2_nested_resolution [("Utility", "batch"), ("Proxy", "proxy")] "add_stake"
      [argD "netuid" (.vint 9)] (some "S") none (by decide) (by decide)
      (List.cons_ne_nil _ _)).1 (by decide),
   (c2_nested_resolution [("Utility", "batch"), ("Proxy", "proxy"),
      ("Multisig", "as_multi"), ("Sudo", "sudo"), ("Utility", "batch_all"),
      ("Proxy", "proxy")] "add_stake" [] none none (by decide) (by decide)
      (List.cons_ne_nil _ _)).2 (by decide)⟩

/-! ### C1 -/

/-- C1 counterexample: a `swap_stake` extrinsic from subnet 3 to subnet
3 — a SWAP candidate whose resolved pair has origin equal to
destination — is NOT excluded: `get_current_block_data` returns it,
refuting "every MOVE, SWAP or TRANSFER candidate with equal origin and
destination is excluded" (the skip list covers only move and
transfer). -/
theorem c1_same_subnet_counterexample :
    (get_current_block_data 100 [extSwapSame] [evStakeAdded] (fun _ => [])).map
        (fun tx => (tx.method, tx.netuid, tx.extrinsic_index)) =
      [("swap_stake", BNetuid.pr 3 3, some 0)] := rfl

theorem processBlockEvent_extidx {extrinsics : List PyVal} {bn : Nat}
    {lookup : String → List Nat} {e : ChainEvent} {tx : BlockTx} {i : Nat}
    (hr : processBlockEvent extrinsics bn lookup e = Except.ok (some tx))
    (h : (get_extrinsic_details extrinsics (some i)).2.2 = true) :
    tx.extrinsic_index ≠ some i := by
  intro hcontra
  unfold processBlockEvent at hr
  split at hr
  · simp at hr
  · split at hr
    · simp at hr
    · split at hr
      · rename_i attrs heq
        split at hr
        · cases hint : pyIntE (attrs.getD 2 .vnone) with
          | error err => rw [hint] at hr; simp [Bind.bind, Except.bind] at hr
          | ok n =>
            rw [hint] at hr
            simp only [Bind.bind, Except.bind] at hr
            split at hr
            · simp at hr
            · rename_i hskip
              obtain rfl := Option.some.inj (Except.ok.inj hr)
              rw [show (⟨bn, e.extrinsic_idx, pyStr (attrs.getD 0 .vnone), raoToTao n, _, _,
                  _, pyStr (attrs.getD 0 .vnone), pyStr (attrs.getD 1 .vnone)⟩ :
                  BlockTx).extrinsic_index = e.extrinsic_idx from rfl] at hcontra
              rw [hcontra] at hskip
              exact hskip h
        · simp at hr
      · simp at hr

theorem processBlockEvents_excl (extrinsics : List PyVal) (bn : Nat)
    (lookup : String → List Nat) (i : Nat)
    (h : (get_extrinsic_details extrinsics (some i)).2.2 = true) :
    ∀ (evs : List ChainEvent), ∀ tx ∈ processBlockEvents extrinsics bn lookup evs,
      tx.extrinsic_index ≠ some i := by
  intro evs
  induction evs with
  | nil => simp [processBlockEvents]
  | cons e rest ih =>
    intro tx htx
    unfold processBlockEvents at htx
    cases hr : processBlockEvent extrinsics bn lookup e with
    | error err => rw [hr] at htx; simp at htx
    | ok r =>
      rw [hr] at htx
      cases r with
      | none => exact ih tx htx
      | some tx0 =>
        rcases List.mem_cons.mp htx with rfl | htx'
        · exact processBlockEvent_extidx hr h
        · exact ih tx htx'

theorem mergeStep_extidx (acc : List ((Option Nat × String × String × String × String) × BlockTx))
    (tx : BlockTx) (i : Option Nat)
    (hacc : ∀ p ∈ acc, p.2.extrinsic_index ≠ i) (htx : tx.extrinsic_index ≠ i) :
    ∀ p ∈ mergeStep acc tx, p.2.extrinsic_index ≠ i := by
  intro p hp
  unfold mergeStep at hp
  simp only [] at hp
  split at hp
  · obtain ⟨q, hq, rfl⟩ := List.mem_map.mp hp
    by_cases hqk : q.1 = mergeKey tx
    · rw [if_pos hqk]
      exact hacc q hq
    · rw [if_neg hqk]
      exact hacc q hq
  · rcases List.mem_append.mp hp with hq | hq
    · exact hacc p hq
    · rw [List.mem_singleton.mp hq]
      exact htx

theorem mergeFold_extidx (i : Option Nat) :
    ∀ (l : List BlockTx)
      (acc : List ((Option Nat × String × String × String × String) × BlockTx)),
      (∀ t ∈ l, t.extrinsic_index ≠ i) → (∀ p ∈ acc, p.2.extrinsic_index ≠ i) →
      ∀ p ∈ l.foldl mergeStep acc, p.2.extrinsic_index ≠ i := by
  intro l
  induction l with
  | nil => intro acc _ hacc p hp; exact hacc p hp
  | cons t rest ih =>
    intro acc hl hacc p hp
    rw [List.foldl_cons] at hp
    exact ih (mergeStep acc t) (fun x hx => hl x (List.mem_cons_of_mem _ hx))
      (mergeStep_extidx acc t i hacc (hl t (List.mem_cons_self _ _))) p hp

/-- C1 (amended): candidates of an extrinsic on which the same-subnet
check fires are excluded from `get_current_block_data` output entirely;
and the check fires exactly for the move/transfer family
(`same_subnet_operations`, which omits swap) when the top-level call's
named origin and destination netuids are both present and equal.  SWAP
candidates and wrapper-nested candidates are therefore not excluded. -/
theorem c1_same_subnet_exclusion :
    (∀ (extrinsics : List PyVal) (events : List ChainEvent) (lookup : String → List Nat)
        (bn i : Nat), (get_extrinsic_details extrinsics (some i)).2.2 = true →
        ∀ tx ∈ get_current_block_data bn extrinsics events lookup,
          tx.extrinsic_index ≠ some i) ∧
    (∀ (call : PyVal) (g : String),
        check_same_subnet_transfer call g = Except.ok true ↔
        (g ∈ same_subnet_operations ∧
          ∃ o, (pyListField call "call_args").foldlM processMoveArgBlock (none, none) =
            Except.ok (some o, some o))) := by
  constructor
  · intro extrinsics events lookup bn i h tx htx
    unfold get_current_block_data merge_duplicate_transactions at htx
    obtain ⟨p, hp, rfl⟩ := List.mem_map.mp htx
    exact mergeFold_extidx (some i) _ [] (processBlockEvents_excl extrinsics bn lookup i h events)
      (by simp) p hp
  · intro call g
    constructor
    · intro h
      unfold check_same_subnet_transfer at h
      split at h
      · simp at h
      · rename_i hg
        cases hfold : (pyListField call "call_args").foldlM processMoveArgBlock (none, none) with
        | error err => rw [hfold] at h; simp [Bind.bind, Except.bind] at h
        | ok st =>
          rw [hfold] at h
          simp only [Bind.bind, Except.bind] at h
          obtain ⟨o, d⟩ := st
          cases o with
          | none => cases d <;> simp at h
          | some ov =>
            cases d with
            | none => simp at h
            | some dv =>
              have : ov = dv := by simpa using Except.ok.inj h
              subst this
              refine ⟨by simpa using hg, ov, rfl⟩
    · rintro ⟨hg, o, hfold⟩
      unfold check_same_subnet_transfer
      rw [if_neg (by simpa using hg)]
      rw [show ((do
          let st ← (pyListField call "call_args").foldlM processMoveArgBlock (none, none)
          match st with
          | (some o, some d) => Except.ok (decide (o = d))
          | _ => Except.ok false) : Except Unit Bool) =
        ((pyListField call "call_args").foldlM processMoveArgBlock (none, none) >>= fun st =>
          match st with
          | (some o, some d) => Except.ok (decide (o = d))
          | _ => Except.ok false) from rfl]
      rw [hfold]
      simp [Bind.bind, Except.bind]

/-- C1 witness: the same-subnet move extrinsic fires the check and all
of its candidates are excluded from the block output. -/
theorem c1_same_subnet_exclusion_witness :
    (get_extrinsic_details [extMoveSame] (some 0)).2.2 = true ∧
    ∀ tx ∈ get_current_block_data 100 [extMoveSame] [evStakeAdded] (fun _ => []),
      tx.extrinsic_index ≠ some 0 :=
  ⟨rfl, c1_same_subnet_exclusion.1 [extMoveSame] [evStakeAdded] (fun _ => []) 100 0 rfl⟩

/-! ### C3 -/

theorem lookup_cons_ne {α β : Type} [BEq α] [LawfulBEq α] {a k : α} (b : β) (es : List (α × β))
    (h : ¬ a = k) : ((k, b) :: es).lookup a = es.lookup a := by
  rw [List.lookup_cons]
  rw [show (a == k) = false from beq_eq_false_iff_ne.mpr h]

theorem lookup_map_updAcc (tx : MTx)
    (l : List ((Option Nat × String × String × String × Option NetuidRef) × MergedTx))
    (k : Option Nat × String × String × String × Option NetuidRef) :
    (l.map (fun p => if p.1 = displayMergeKey tx then (p.1, accMergedTx p.2 tx) else p)).lookup
        k =
      if k = displayMergeKey tx then (l.lookup k).map (fun e => accMergedTx e tx)
      else l.lookup k := by
  induction l with
  | nil => by_cases hk : k = displayMergeKey tx <;> simp [hk]
  | cons p rest ih =>
    obtain ⟨pk, pv⟩ := p
    simp only [List.map_cons]
    by_cases hp : pk = displayMergeKey tx
    · rw [if_pos hp]
      by_cases hk : k = pk
      · subst hk
        simp only [List.lookup_cons_self, if_pos hp, Option.map_some']
      · have hkne : ¬ k = displayMergeKey tx := fun h => hk (h.trans hp.symm)
        simp only [lookup_cons_ne _ _ hk, ih, if_neg hkne]
    · rw [if_neg hp]
      by_cases hk : k = pk
      · subst hk
        simp only [List.lookup_cons_self, if_neg hp]
      · simp only [lookup_cons_ne _ _ hk, ih]

theorem map_fst_map_updAcc (tx : MTx)
    (l : List ((Option Nat × String × String × String × Option NetuidRef) × MergedTx)) :
    ((l.map (fun p => if p.1 = displayMergeKey tx then (p.1, accMergedTx p.2 tx) else p)).map
        Prod.fst) =
      l.map Prod.fst := by
  induction l with
  | nil => rfl
  | cons p rest ih =>
    by_cases hp : p.1 = displayMergeKey tx <;> simp_all

theorem lookup_of_mem_nodup {α β : Type} [BEq α] [LawfulBEq α] {l : List (α × β)} {p : α × β}
    (hmem : p ∈ l) (hnd : (l.map Prod.fst).Nodup) : l.lookup p.1 = some p.2 := by
  induction l with
  | nil => simp at hmem
  | cons q rest ih =>
    obtain ⟨qk, qv⟩ := q
    rw [List.map_cons, List.nodup_cons] at hnd
    rcases List.mem_cons.mp hmem with rfl | hmem'
    · simp [List.lookup_cons]
    · have hne : ¬ p.1 = qk := by
        intro hqe
        apply hnd.1
        rw [show (qk, qv).1 = qk from rfl, ← hqe]
        exact List.mem_map.mpr ⟨p, hmem', rfl⟩
      rw [lookup_cons_ne _ _ hne]
      exact ih hmem' hnd.2

theorem accMergedTx_key (e : MergedTx) (tx : MTx) :
    mergedKeyOf (accMergedTx e tx) = mergedKeyOf e := rfl

theorem seedMergedTx_key (tx : MTx) :
    mergedKeyOf (seedMergedTx tx) = displayMergeKey tx := rfl

theorem keyGroup_append_skip (processed : List MTx) (tx : MTx)
    (hskip : displaySkip tx = true) (k : Option Nat × String × String × String × Option NetuidRef) :
    keyGroup (processed ++ [tx]) k = keyGroup processed k := by
  unfold keyGroup
  rw [List.filter_append]
  simp [hskip]

theorem keyGroup_append_tx (processed : List MTx) (tx : MTx)
    (hskip : ¬ displaySkip tx = true) (k : Option Nat × String × String × String × Option NetuidRef) :
    keyGroup (processed ++ [tx]) k =
      keyGroup processed k ++ (if displayMergeKey tx = k then [tx] else []) := by
  unfold keyGroup
  rw [List.filter_append]
  congr 1
  by_cases hk : displayMergeKey tx = k
  · simp [hskip, hk]
  · simp [hskip, hk]

theorem displayMergeStep_inv (processed : List MTx)
    (acc : List ((Option Nat × String × String × String × Option NetuidRef) × MergedTx))
    (tx : MTx) (h : MergeInv processed acc) :
    MergeInv (processed ++ [tx]) (displayMergeStep acc tx) := by
  obtain ⟨ha, hb, hc, hd⟩ := h
  by_cases hskip : displaySkip tx = true
  · unfold displayMergeStep
    rw [if_pos hskip]
    exact ⟨ha, hb,
      fun k => by rw [keyGroup_append_skip processed tx hskip k]; exact hc k,
      fun k e he => by rw [keyGroup_append_skip processed tx hskip k]; exact hd k e he⟩
  · have hstep : displayMergeStep acc tx =
        (if (acc.lookup (displayMergeKey tx)).isSome then acc
         else acc ++ [(displayMergeKey tx, seedMergedTx tx)]).map
          (fun p => if p.1 = displayMergeKey tx then (p.1, accMergedTx p.2 tx) else p) := by
      unfold displayMergeStep
      rw [if_neg hskip]
    rw [hstep]
    by_cases hlook : (acc.lookup (displayMergeKey tx)).isSome = true
    · rw [if_pos hlook]
      obtain ⟨e0, he0⟩ := Option.isSome_iff_exists.mp hlook
      refine ⟨?_, ?_, ?_, ?_⟩
      · intro p hp
        obtain ⟨q, hq, rfl⟩ := List.mem_map.mp hp
        by_cases hqk : q.1 = displayMergeKey tx
        · rw [if_pos hqk]
          rw [show ((q.1, accMergedTx q.2 tx) :
              ((Option Nat × String × String × String × Option NetuidRef) × MergedTx)).2 =
            accMergedTx q.2 tx from rfl, accMergedTx_key]
          exact ha q hq
        · rw [if_neg hqk]
          exact ha q hq
      · rw [map_fst_map_updAcc]
        exact hb
      · intro k
        rw [lookup_map_updAcc, keyGroup_append_tx processed tx hskip k]
        by_cases hk : k = displayMergeKey tx
        · rw [if_pos hk, hk, he0]
          constructor
          · intro hcon; simp at hcon
          · intro hcon
            exfalso
            have := List.append_eq_nil.mp hcon
            rw [if_pos rfl] at this
            simp at this
        · rw [if_neg hk]
          rw [if_neg (fun hh => hk hh.symm), List.append_nil]
          exact hc k
      · intro k e he
        rw [lookup_map_updAcc] at he
        rw [keyGroup_append_tx processed tx hskip k]
        by_cases hk : k = displayMergeKey tx
        · subst hk
          rw [if_pos rfl] at he
          rw [he0] at he
          obtain rfl := Option.some.inj (by simpa using he)
          obtain ⟨h1, h2, h3⟩ := hd _ e0 he0
          rw [if_pos rfl]
          refine ⟨?_, ?_, ?_⟩
          · rw [List.map_append, List.sum_append]
            rw [show accMergedTx e0 tx = ⟨e0.extrinsic_idx, e0.ttype, e0.method, e0.address,
              e0.netuid, e0.amount + tx.amount, e0.success && tx.success, e0.count + 1⟩ from rfl]
            simp [h1]
          · rw [List.all_append]
            simp [accMergedTx, h2]
          · rw [List.length_append]
            simp [accMergedTx, h3]
        · rw [if_neg hk] at he
          rw [if_neg (fun hh => hk hh.symm), List.append_nil]
          exact hd k e he
    · rw [if_neg hlook]
      have hnone : acc.lookup (displayMergeKey tx) = none := by
        cases hv : acc.lookup (displayMergeKey tx)
        · rfl
        · rw [hv] at hlook; simp at hlook
      refine ⟨?_, ?_, ?_, ?_⟩
      · intro p hp
        obtain ⟨q, hq, rfl⟩ := List.mem_map.mp hp
        rcases List.mem_append.mp hq with hq' | hq'
        · by_cases hqk : q.1 = displayMergeKey tx
          · rw [if_pos hqk]
            rw [show ((q.1, accMergedTx q.2 tx) :
                ((Option Nat × String × String × String × Option NetuidRef) × MergedTx)).2 =
              accMergedTx q.2 tx from rfl, accMergedTx_key]
            exact ha q hq'
          · rw [if_neg hqk]
            exact ha q hq'
        · rw [List.mem_singleton.mp hq']
          rw [if_pos rfl]
          rw [show (((displayMergeKey tx, seedMergedTx tx) :
              ((Option Nat × String × String × String × Option NetuidRef) × MergedTx)).1,
              accMergedTx ((displayMergeKey tx, seedMergedTx tx)).2 tx).2 =
            accMergedTx (seedMergedTx tx) tx from rfl]
          rw [accMergedTx_key, seedMergedTx_key]
      · rw [map_fst_map_updAcc, List.map_append]
        have hnotmem : displayMergeKey tx ∉ acc.map Prod.fst := by
          intro hmem
          obtain ⟨p, hp, hfst⟩ := List.mem_map.mp hmem
          have := List.lookup_eq_none_iff.mp hnone p hp
          rw [hfst] at this
          simp at this
        simp [List.nodup_append, hb, hnotmem]
      · intro k
        rw [lookup_map_updAcc, List.lookup_append, keyGroup_append_tx processed tx hskip k]
        by_cases hk : k = displayMergeKey tx
        · rw [if_pos hk, hk, hnone]
          constructor
          · intro hcon; simp at hcon
          · intro hcon
            exfalso
            have := List.append_eq_nil.mp hcon
            rw [if_pos rfl] at this
            simp at this
        · rw [if_neg hk]
          rw [show ([(displayMergeKey tx, seedMergedTx tx)].lookup k) = none from by
            rw [lookup_cons_ne _ _ hk, List.lookup_nil]]
          rw [Option.or_none, if_neg (fun hh => hk hh.symm), List.append_nil]
          exact hc k
      · intro k e he
        rw [lookup_map_updAcc, List.lookup_append] at he
        rw [keyGroup_append_tx processed tx hskip k]
        by_cases hk : k = displayMergeKey tx
        · rw [if_pos hk, hk, hnone] at he
          rw [show (Option.none.or ([(displayMergeKey tx, seedMergedTx tx)].lookup
              (displayMergeKey tx))) = some (seedMergedTx tx) from by
            simp [List.lookup_cons]] at he
          obtain rfl := Option.some.inj (by simpa using he)
          have hgroupnil : keyGroup processed k = [] := (hc k).mp (hk ▸ hnone)
          rw [if_pos hk.symm, hgroupnil, List.nil_append]
          refine ⟨?_, ?_, ?_⟩
          · simp [accMergedTx, seedMergedTx]
          · simp [accMergedTx, seedMergedTx]
          · simp [accMergedTx, seedMergedTx]
        · rw [if_neg hk] at he
          rw [show ([(displayMergeKey tx, seedMergedTx tx)].lookup k) = none from by
            rw [lookup_cons_ne _ _ hk, List.lookup_nil]] at he
          rw [Option.or_none] at he
          rw [if_neg (fun hh => hk hh.symm), List.append_nil]
          exact hd k e he

theorem displayMergeFold_inv :
    ∀ (txs processed : List MTx)
      (acc : List ((Option Nat × String × String × String × Option NetuidRef) × MergedTx)),
      MergeInv processed acc →
      MergeInv (processed ++ txs) (txs.foldl displayMergeStep acc) := by
  intro txs
  induction txs with
  | nil =>
    intro processed acc h
    simpa using h
  | cons t rest ih =>
    intro processed acc h
    rw [List.foldl_cons]
    have := ih (processed ++ [t]) (displayMergeStep acc t) (displayMergeStep_inv _ _ _ h)
    simpa using this

theorem countP_eq_one_of_nodup {α : Type} [DecidableEq α] {l : List α} (hnd : l.Nodup)
    {a : α} (ha : a ∈ l) : l.countP (fun x => decide (x = a)) = 1 := by
  induction l with
  | nil => simp at ha
  | cons b rest ih =>
    rw [List.nodup_cons] at hnd
    rcases List.mem_cons.mp ha with rfl | ha'
    · have h0 : rest.countP (fun x => decide (x = a)) = 0 := by
        rw [List.countP_eq_zero]
        intro x hx
        simp only [decide_eq_true_eq]
        intro hxa
        exact hnd.1 (hxa ▸ hx)
      simp [List.countP_cons, h0]
    · have hba : ¬ b = a := fun h => hnd.1 (h ▸ ha')
      rw [List.countP_cons]
      simp [hba, ih hnd.2 ha']

theorem mergeInv_base : MergeInv [] [] := by
  refine ⟨by simp, by simp, ?_, by simp⟩
  intro k
  simp [keyGroup]

/-- C3: the last-block merge of `display_screen` merges all raw
candidates sharing the grouping key (extrinsic index, kind, method
path, signer, subnet reference by value) into exactly one row whose
amount is the sum of the group's amounts — each amount counted exactly
once — and whose success flag is the conjunction of the group's success
flags (its member count is the group size). -/
theorem c3_dedup_merge (txs : List MTx)
    (k : Option Nat × String × String × String × Option NetuidRef)
    (hk : keyGroup txs k ≠ []) :
    (display_merge_block txs).countP (fun e => decide (mergedKeyOf e = k)) = 1 ∧
    ∀ e ∈ display_merge_block txs, mergedKeyOf e = k →
      e.amount = ((keyGroup txs k).map MTx.amount).sum ∧
      e.success = (keyGroup txs k).all MTx.success ∧
      e.count = (keyGroup txs k).length := by
  have hinv : MergeInv txs (txs.foldl displayMergeStep []) := by
    have := displayMergeFold_inv txs [] [] mergeInv_base
    simpa using this
  obtain ⟨ha, hb, hc, hd⟩ := hinv
  have hlknone : ¬ ((txs.foldl displayMergeStep []).lookup k = none) := fun hn => hk ((hc k).mp hn)
  obtain ⟨e0, he0⟩ : ∃ e, (txs.foldl displayMergeStep []).lookup k = some e := by
    cases hv : (txs.foldl displayMergeStep []).lookup k
    · exact absurd hv hlknone
    · exact ⟨_, rfl⟩
  constructor
  · have hkmem : k ∈ (txs.foldl displayMergeStep []).map Prod.fst := by
      have hsome : ((txs.foldl displayMergeStep []).lookup k).isSome := by rw [he0]; rfl
      obtain ⟨p, hp, hbeq⟩ := List.lookup_isSome_iff.mp hsome
      exact List.mem_map.mpr ⟨p, hp, (eq_of_beq hbeq).symm⟩
    unfold display_merge_block
    rw [List.countP_map]
    have hcong : ∀ p ∈ txs.foldl displayMergeStep [],
        (((fun e => decide (mergedKeyOf e = k)) ∘ Prod.snd) p = true ↔
          (fun p => decide (p.1 = k)) p = true) := by
      intro p hp
      have hkey := ha p hp
      simp [Function.comp, hkey]
    rw [List.countP_congr hcong]
    have hbridge : ((txs.foldl displayMergeStep []).map Prod.fst).countP
        (fun x => decide (x = k)) =
        (txs.foldl displayMergeStep []).countP (fun p => decide (p.1 = k)) := by
      rw [List.countP_map]
      rfl
    rw [← hbridge]
    exact countP_eq_one_of_nodup hb hkmem
  · intro e he hek
    unfold display_merge_block at he
    obtain ⟨p, hp, rfl⟩ := List.mem_map.mp he
    have hpk : p.1 = k := by rw [← ha p hp]; exact hek
    have := lookup_of_mem_nodup hp hb
    rw [hpk] at this
    exact hd k p.2 this

/-- C3 witness: two raw candidates with the key (extrinsic 5, STAKE,
`add_stake`, signer S, subnet 3) and amounts 1.5 and 2.5 merge into one
row whose amount is their sum, 4.0. -/
theorem c3_dedup_merge_witness :
    ((display_merge_block [mtxA, mtxB]).countP
      (fun e => decide (mergedKeyOf e =
        (some 5, "STAKE", "add_stake", "S", some (.single 3)))) = 1 ∧
    ∀ e ∈ display_merge_block [mtxA, mtxB],
      mergedKeyOf e = (some 5, "STAKE", "add_stake", "S", some (.single 3)) →
      e.amount = ((keyGroup [mtxA, mtxB]
          (some 5, "STAKE", "add_stake", "S", some (.single 3))).map MTx.amount).sum ∧
      e.success = (keyGroup [mtxA, mtxB]
          (some 5, "STAKE", "add_stake", "S", some (.single 3))).all MTx.success ∧
      e.count = (keyGroup [mtxA, mtxB]
          (some 5, "STAKE", "add_stake", "S", some (.single 3))).length) ∧
    ((keyGroup [mtxA, mtxB]
        (some 5, "STAKE", "add_stake", "S", some (.single 3))).map MTx.amount).sum = 4 := by
  constructor
  · exact c3_dedup_merge [mtxA, mtxB] (some 5, "STAKE", "add_stake", "S", some (.single 3))
      (by
        rw [show keyGroup [mtxA, mtxB]
            (some 5, "STAKE", "add_stake", "S", some (.single 3)) = [mtxA, mtxB] from rfl]
        exact List.cons_ne_nil _ _)
  · rw [show (keyGroup [mtxA, mtxB]
        (some 5, "STAKE", "add_stake", "S", some (.single 3))).map MTx.amount =
      [3 / 2, 5 / 2] from rfl]
    norm_num

end ATB
